import Mathlib

/-! Chat relay (`server.c`): registry, broadcast engine and inbound loop

A shallow embedding of the relay in `src/server.c`.

* The global table `clients[MAX_CLIENTS]` together with `client_count` is the
  record `Registry`; the functions that read or write the globals take and
  return it explicitly.
* Bytes are natural numbers (`Byte`); a C string held in a buffer is the part
  of the buffer before its first NUL byte (`cstr`).
* Every system call that is visible from outside the process is recorded as an
  `Event` (`lock`, `unlock`, `send`, `close`), in program order.
* The peer's side of a connection is a list of `Arrival`s consumed by `recv`.
-/

namespace Chatroom

/-! ## Data model -/

/-- The C type `UINT8`. -/
abbrev Byte := Nat

/-- The constant `#define MAX_CLIENTS 5`. -/
abbrev MAX_CLIENTS : Nat := 5

/-- The constant `#define BUFFER_SIZE 1024`. -/
abbrev BUFFER_SIZE : Nat := 1024

/-- The constant `#define NAME_SIZE 10`. -/
abbrev NAME_SIZE : Nat := 10

/-- The struct `clientInfo_t`: a socket descriptor and a `NAME_SIZE`-byte nickname array. -/
structure clientInfo_t where
  socket : Int
  nickname : List Byte
deriving DecidableEq, Repr

/-- A zero-initialised table slot (the globals have static storage). -/
instance : Inhabited clientInfo_t := ⟨⟨0, List.replicate NAME_SIZE 0⟩⟩

/-- The two globals `clients` and `client_count`. -/
structure Registry where
  clients : List clientInfo_t
  client_count : Int
deriving DecidableEq, Repr

/-- The globals at program start: a zeroed table and `client_count = 0`. -/
def Registry.initial : Registry :=
  { clients := List.replicate MAX_CLIENTS default, client_count := 0 }

/-- The table has its declared size and `client_count` indexes inside it. -/
def Registry.WF (r : Registry) : Prop :=
  r.clients.length = MAX_CLIENTS ∧ 0 ≤ r.client_count ∧ r.client_count ≤ MAX_CLIENTS

instance (r : Registry) : Decidable r.WF := by
  unfold Registry.WF; infer_instance

/-- The live entries: the first `client_count` slots of the table. -/
def Registry.registered (r : Registry) : List clientInfo_t :=
  r.clients.take r.client_count.toNat

/-- The connection handles of the live entries, in table order. -/
def Registry.sockets (r : Registry) : List Int :=
  r.registered.map (fun c => c.socket)

/-! ## Registry operations (`server.c` lines 287-312) -/

/-- The function `add_client`: returns the `INT32` result and the updated globals. -/
def add_client (socket : Int) (r : Registry) : Int × Registry :=
  if r.client_count < MAX_CLIENTS then
    (1, { clients := r.clients.set r.client_count.toNat
                      { r.clients.getD r.client_count.toNat default with socket := socket },
          client_count := r.client_count + 1 })
  else
    (0, r)

/-- The inner loop of `remove_client`,
`for (j = i; j < client_count - 1; j++) clients[j] = clients[j + 1];`
with `k` the number of iterations left. -/
def shiftLoop (clients : List clientInfo_t) (j : Nat) : Nat → List clientInfo_t
  | 0 => clients
  | k + 1 => shiftLoop (clients.set j (clients.getD (j + 1) default)) (j + 1) k

/-- The outer loop of `remove_client`, `for (i = 0; i < client_count; i++)`,
at index `i` with `k` iterations left; the `break` ends the recursion. -/
def removeLoop (socket : Int) (r : Registry) (i : Nat) : Nat → Registry
  | 0 => r
  | k + 1 =>
    if (r.clients.getD i default).socket = socket then
      { clients := shiftLoop r.clients i (r.client_count - 1 - i).toNat,
        client_count := r.client_count - 1 }
    else
      removeLoop socket r (i + 1) k

/-- The function `remove_client`. -/
def remove_client (socket : Int) (r : Registry) : Registry :=
  removeLoop socket r 0 r.client_count.toNat

/-- A call on the registry. -/
inductive RegOp where
  | add (socket : Int)
  | remove (socket : Int)
deriving DecidableEq, Repr

/-- The globals after one call. -/
def RegOp.apply : RegOp → Registry → Registry
  | .add s, r => (add_client s r).2
  | .remove s, r => remove_client s r

/-- The globals after a sequence of calls, first call first. -/
def runOps : List RegOp → Registry → Registry
  | [], r => r
  | op :: ops, r => runOps ops (op.apply r)

/-- Consecutive `add_client` calls: the results in call order and the final globals. -/
def joins : List Int → Registry → List Int × Registry
  | [], r => ([], r)
  | s :: ss, r =>
    let a := add_client s r
    let rest := joins ss a.2
    (a.1 :: rest.1, rest.2)

/-- Every `add_client` in the sequence is given a handle that no live entry holds
at the time of the call. -/
def freshAdds : List RegOp → Registry → Bool
  | [], _ => true
  | .add s :: ops, r => decide (s ∉ r.sockets) && freshAdds ops (add_client s r).2
  | .remove s :: ops, r => freshAdds ops (remove_client s r)

/-! ## Byte strings and formatted output -/

/-- The bytes of an ASCII string literal of the source. -/
def bytes (s : String) : List Byte := s.toList.map Char.toNat

/-- The C string held in a buffer: the bytes before the first NUL. It is what
`strlen`, `strncmp`, `%s` and `sscanf` see of the buffer. -/
def cstr (buf : List Byte) : List Byte := buf.takeWhile (fun b => b != 0)

/-- The effect of `snprintf(dst, size, ...)` on `dst`, given the complete formatted
output: at most `size - 1` bytes are stored before the terminating NUL. -/
def snprintf (size : Nat) (out : List Byte) : List Byte := out.take (size - 1)

/-- The decimal digits of `n`, most significant first, in front of `acc`. -/
def fmtNatAux : Nat → Nat → List Byte → List Byte
  | 0, _, acc => acc
  | fuel + 1, n, acc =>
    if n < 10 then (48 + n) :: acc
    else fmtNatAux fuel (n / 10) ((48 + n % 10) :: acc)

/-- The output of `%d` for a non-negative value. -/
def fmt_u (n : Nat) : List Byte := fmtNatAux (n + 1) n []

/-- The output of the `%d` conversion. -/
def fmt_d (v : Int) : List Byte :=
  if v < 0 then 45 :: fmt_u v.natAbs else fmt_u v.natAbs

/-- The value of a 32-bit pattern read as `INT32` (what `%d` prints of a `UINT32`
argument, and what the `INT32 size` parameter receives from `UINT32 image_size`). -/
def toInt32 (n : Nat) : Int :=
  if n % 2 ^ 32 < 2 ^ 31 then ((n % 2 ^ 32 : Nat) : Int) else ((n % 2 ^ 32 : Nat) : Int) - 2 ^ 32

/-- The 32-bit pattern stored in a `UINT32` object by `%d`: the low 32 bits of the
converted `long`. -/
def toUInt32 (v : Int) : Nat := (v % 2 ^ 32).toNat

/-- The call `strncpy(dst, src, n)`: the C string of `src`, NUL-padded to `n` bytes, over the
first `n` bytes of `dst`. -/
def strncpy (dst src : List Byte) (n : Nat) : List Byte :=
  (cstr src ++ List.replicate (n - (cstr src).length) 0).take n ++ dst.drop n

/-! ## `sscanf(buffer, "/i %s %d %d %d", filename, &image_size, &width, &height)` -/

/-- The function `isspace` in the C locale. -/
def isspace (b : Byte) : Bool := b == 32 || (9 ≤ b && b ≤ 13)

/-- The function `isdigit`. -/
def isdigit (b : Byte) : Bool := 48 ≤ b && b ≤ 57

/-- A white-space directive, and the leading white space that `%s` and `%d` skip. -/
def skipSpace (s : List Byte) : List Byte := s.dropWhile isspace

/-- The `%s` conversion: the longest run of non-space bytes after the leading white
space, and the input left; `none` when the input is exhausted. -/
def scanStr (s : List Byte) : Option (List Byte × List Byte) :=
  let s := skipSpace s
  let tok := s.takeWhile (fun b => !isspace b)
  if tok.length = 0 then none else some (tok, s.dropWhile (fun b => !isspace b))

/-- The value of a run of decimal digits. -/
def digitsValue (ds : List Byte) : Nat := ds.foldl (fun a d => a * 10 + (d - 48)) 0

/-- The largest `long` of the C library the relay is built against (glibc, 64-bit
`long`). -/
def LONG_MAX : Int := 2 ^ 63 - 1

/-- The smallest `long` of the C library the relay is built against. -/
def LONG_MIN : Int := -(2 ^ 63)

/-- The `long` that the C library converts a signed decimal value to, as `strtol`
does: a value outside the range of `long` saturates at `LONG_MAX` or `LONG_MIN`. -/
def clampLong (v : Int) : Int :=
  if v < LONG_MIN then LONG_MIN else if LONG_MAX < v then LONG_MAX else v

/-- The `%d` conversion: optional sign and a non-empty run of digits after the
leading white space, converted to a `long` with saturation, and the input left;
`none` on a matching failure. The caller stores the low 32 bits of the `long`. -/
def scanInt (s : List Byte) : Option (Int × List Byte) :=
  let s := skipSpace s
  let neg := s.head? == some 45
  let s := if s.head? == some 45 || s.head? == some 43 then s.drop 1 else s
  let ds := s.takeWhile isdigit
  if ds.length = 0 then none
  else
    some (clampLong (if neg then -(digitsValue ds : Int) else (digitsValue ds : Int)),
      s.dropWhile isdigit)

/-- What the `sscanf` call of `handle_client` does. -/
inductive ScanResult where
  /-- The `%s` token and its NUL do not fit `UINT8 filename[256]`: the call writes
  past the array, the behaviour is undefined. -/
  | overflow
  /-- The call returns something other than 4. -/
  | mismatch
  /-- The call returns 4, with these values stored. -/
  | fields (filename : List Byte) (image_size width height : Nat)
deriving DecidableEq, Repr

/-- The `sscanf` call at line 156 on the NUL-terminated receive buffer. -/
def sscanf_header (buffer : List Byte) : ScanResult :=
  match cstr buffer with
  | 47 :: 105 :: s =>
    match scanStr s with
    | none => .mismatch
    | some (filename, s1) =>
      if 256 ≤ filename.length then .overflow
      else
        match scanInt s1 with
        | none => .mismatch
        | some (image_size, s2) =>
          match scanInt s2 with
          | none => .mismatch
          | some (width, s3) =>
            match scanInt s3 with
            | none => .mismatch
            | some (height, _) =>
              .fields filename (toUInt32 image_size) (toUInt32 width) (toUInt32 height)
  | _ => .mismatch

/-! ## Environment: transport and allocator -/

/-- The answer of the transport to `send(socket, buf, len, 0)` as a function of the
socket and `len`: `none` for `-1`, `some k` for a positive count. -/
abbrev Transport := Int → Nat → Option Nat

/-- The value returned by `send(socket, buf, len, 0)`: `none` for `-1`, otherwise
the number of bytes accepted, at least 1 and at most `len` when `len > 0`. -/
def sendRet (net : Transport) (socket : Int) (len : Nat) : Option Nat :=
  (net socket len).map (fun k => min len (k + 1))

/-- A transport that accepts every buffer whole. -/
def reliable : Transport := fun _ len => some len

/-- What arrives on a connection: a burst of bytes that are available together
(`data []` is the peer's orderly shutdown), or a transport error. After the last
arrival the peer has closed the connection. -/
inductive Arrival where
  | data (bs : List Byte)
  | error
deriving DecidableEq, Repr

/-- The call `recv(socket, buf, len, 0)`: the result (`none` for `-1`, otherwise the bytes
stored, none at all for the return value 0) and what is still to arrive. A burst
longer than `len` is returned in part, the rest stays queued. -/
def recv : List Arrival → Nat → Option (List Byte) × List Arrival
  | [], _ => (some [], [])
  | .error :: rest, _ => (none, rest)
  | .data bs :: rest, len =>
    if bs.length ≤ len then (some bs, rest)
    else (some (bs.take len), .data (bs.drop len) :: rest)

/-- A bound on the number of `recv` calls that can still return data. -/
def chSize : List Arrival → Nat
  | [] => 0
  | .data bs :: rest => bs.length + 1 + chSize rest
  | .error :: rest => 1 + chSize rest

/-! ## Observable events -/

/-- The calls of the relay that are visible outside the thread, in program order. -/
inductive Event where
  /-- The call `pthread_mutex_lock(&clients_mutex)`. -/
  | lock
  /-- The call `pthread_mutex_unlock(&clients_mutex)`. -/
  | unlock
  /-- The call `send(socket, buf, len, 0)` with the `len` bytes offered and the value returned
  (`none` for `-1`). -/
  | send (socket : Int) (buf : List Byte) (ret : Option Nat)
  /-- The call `close(socket)`. -/
  | close (socket : Int)
deriving DecidableEq, Repr

/-- The `send` calls of a trace: destination and bytes offered. -/
def sendCalls : List Event → List (Int × List Byte)
  | [] => []
  | .send s buf _ :: es => (s, buf) :: sendCalls es
  | _ :: es => sendCalls es

/-- The bytes a trace puts on the connection `socket`: of every `send` to it, the
part the transport accepted. -/
def delivered (socket : Int) : List Event → List Byte
  | [] => []
  | .send s buf (some k) :: es =>
    if s = socket then buf.take k ++ delivered socket es else delivered socket es
  | _ :: es => delivered socket es

/-- No `send` happens while `clients_mutex` is held; `held` is the state of the
mutex before the trace. -/
def noSendWhileLocked : Bool → List Event → Bool
  | _, [] => true
  | _, .lock :: es => noSendWhileLocked true es
  | _, .unlock :: es => noSendWhileLocked false es
  | held, .send _ _ _ :: es => !held && noSendWhileLocked held es
  | held, .close _ :: es => noSendWhileLocked held es

/-- The mutex is acquired only when free and released only when held, it is free
at the end, and every `send` happens while it is held. -/
def sendsUnderLock : Bool → List Event → Bool
  | held, [] => !held
  | held, .lock :: es => !held && sendsUnderLock true es
  | held, .unlock :: es => held && sendsUnderLock false es
  | held, .send _ _ _ :: es => held && sendsUnderLock held es
  | held, .close _ :: es => sendsUnderLock held es

/-! ## Broadcast engine (`server.c` lines 229-285) -/

/-- The loop `for (int i = 0; i < client_count; i++)` of `broadcast_message` and
`broadcast_image_header`, at index `i` with `k` iterations left: one `send` of the
`len = strlen(msg)` bytes of `msg` to every entry whose socket is not the sender's. -/
def broadcastLoop (net : Transport) (msg : List Byte) (sender_socket : Int) (r : Registry)
    (i : Nat) : Nat → List Event
  | 0 => []
  | k + 1 =>
    (if (r.clients.getD i default).socket ≠ sender_socket then
      [Event.send (r.clients.getD i default).socket msg
        (sendRet net (r.clients.getD i default).socket msg.length)]
    else []) ++ broadcastLoop net msg sender_socket r (i + 1) k

/-- The function `broadcast_message(message, sender_socket)`. -/
def broadcast_message (net : Transport) (message : List Byte) (sender_socket : Int)
    (r : Registry) : List Event :=
  [Event.lock] ++ broadcastLoop net (cstr message) sender_socket r 0 r.client_count.toNat
    ++ [Event.unlock]

/-- The header line built by `broadcast_image_header`:
`snprintf(header, BUFFER_SIZE, "/i %s %s %d %d %d\n", nickname, filename, size, width, height)`. -/
def image_header (nickname filename : List Byte) (size : Int) (width height : Nat) : List Byte :=
  snprintf BUFFER_SIZE
    (bytes "/i " ++ cstr nickname ++ bytes " " ++ cstr filename ++ bytes " " ++ fmt_d size
      ++ bytes " " ++ fmt_d (toInt32 width) ++ bytes " " ++ fmt_d (toInt32 height) ++ bytes "\n")

/-- The function
`broadcast_image_header(filename, size, sender_socket, nickname, width, height)`. -/
def broadcast_image_header (net : Transport) (filename : List Byte) (size : Int)
    (sender_socket : Int) (nickname : List Byte) (width height : Nat) (r : Registry) :
    List Event :=
  [Event.lock] ++
    broadcastLoop net (cstr (image_header nickname filename size width height)) sender_socket r 0
      r.client_count.toNat
    ++ [Event.unlock]

/-- The loop `while (bytes_sent < data_len)` of `broadcast_image_data` for one
recipient. Every iteration but a failing one advances `bytes_sent` by at least one,
so `data_len` iterations are enough. -/
def sendAll (net : Transport) (socket : Int) (data : List Byte) (data_len : Nat)
    (bytes_sent : Nat) : Nat → List Event
  | 0 => []
  | fuel + 1 =>
    if bytes_sent < data_len then
      match sendRet net socket (data_len - bytes_sent) with
      | none =>
        [Event.send socket ((data.drop bytes_sent).take (data_len - bytes_sent)) none]
      | some sent =>
        Event.send socket ((data.drop bytes_sent).take (data_len - bytes_sent)) (some sent)
          :: sendAll net socket data data_len (bytes_sent + sent) fuel
    else []

/-- The loop over the table of `broadcast_image_data`. -/
def dataLoop (net : Transport) (data : List Byte) (data_len : Nat) (sender_socket : Int)
    (r : Registry) (i : Nat) : Nat → List Event
  | 0 => []
  | k + 1 =>
    (if (r.clients.getD i default).socket ≠ sender_socket then
      sendAll net (r.clients.getD i default).socket data data_len 0 data_len
    else []) ++ dataLoop net data data_len sender_socket r (i + 1) k

/-- The function `broadcast_image_data(data, data_len, sender_socket)`. -/
def broadcast_image_data (net : Transport) (data : List Byte) (data_len : Nat)
    (sender_socket : Int) (r : Registry) : List Event :=
  [Event.lock] ++ dataLoop net data data_len sender_socket r 0 r.client_count.toNat
    ++ [Event.unlock]

/-! ## The session thread (`handle_client`, lines 112-227) -/

/-- The state after the payload loop of lines 168-180. -/
structure ImageRecv where
  /-- The bytes stored in `image_data` so far. -/
  image_data : List Byte
  total_received : Nat
  /-- What is still to arrive on the connection. -/
  ch : List Arrival
  /-- The loop was left through `free(image_data); break;`. -/
  freed : Bool
  /-- The addition `total_received += received` left the range of `INT32`. -/
  overflow : Bool
deriving DecidableEq, Repr

/-- The loop `while (total_received < image_size)` of lines 170-180. Every iteration
that does not leave the loop stores at least one byte, so `image_size + 1` iterations
are enough. -/
def recvImage (image_size : Nat) (image_data : List Byte) (total_received : Nat)
    (ch : List Arrival) : Nat → ImageRecv
  | 0 =>
    { image_data := image_data, total_received := total_received, ch := ch, freed := false,
      overflow := false }
  | fuel + 1 =>
    if total_received < image_size then
      match recv ch (image_size - total_received) with
      | (none, ch1) =>
        { image_data := image_data, total_received := total_received, ch := ch1, freed := true,
          overflow := false }
      | (some got, ch1) =>
        if got.length = 0 then
          { image_data := image_data, total_received := total_received, ch := ch1,
            freed := true, overflow := false }
        else if 2 ^ 31 ≤ total_received + got.length then
          { image_data := image_data ++ got, total_received := total_received + got.length,
            ch := ch1, freed := false, overflow := true }
        else
          recvImage image_size (image_data ++ got) (total_received + got.length) ch1 fuel
    else
      { image_data := image_data, total_received := total_received, ch := ch, freed := false,
        overflow := false }

/-- The result of a piece of the session thread. -/
structure Step where
  /-- The events it produced, in order. -/
  events : List Event
  /-- What is still to arrive on the connection. -/
  ch : List Arrival
  /-- The globals afterwards. -/
  reg : Registry
  /-- The piece ran into undefined behaviour (a write past `filename[256]`, an
  overflow of `total_received`, or a second `free` of `image_data`); `events` are
  those before it. -/
  undefined : Bool
deriving DecidableEq, Repr

/-- The body of the inbound loop (lines 148-200) for one non-empty read `buffer`.
`malloc_ok n` tells whether `malloc(n)` returns a block. -/
def handle_unit (net : Transport) (malloc_ok : Nat → Bool) (nickname : List Byte)
    (client_socket : Int) (r : Registry) (buffer : List Byte) (ch : List Arrival) : Step :=
  if (cstr buffer).take 3 = bytes "/i " then
    match sscanf_header buffer with
    | .overflow => { events := [], ch := ch, reg := r, undefined := true }
    | .fields filename image_size width height =>
      let hdr := broadcast_image_header net filename (toInt32 image_size) client_socket nickname
        width height r
      if malloc_ok image_size then
        let got := recvImage image_size [] 0 ch (image_size + 1)
        if got.overflow then
          { events := hdr, ch := got.ch, reg := r, undefined := true }
        else
          { events := hdr ++
              (if got.total_received = image_size then
                broadcast_image_data net got.image_data image_size client_socket r
              else []),
            ch := got.ch,
            reg := r,
            undefined := got.freed }
      else
        { events := hdr, ch := ch, reg := r, undefined := false }
    | .mismatch =>
      { events := [Event.send client_socket (bytes "Format is incorrect!\n")
          (sendRet net client_socket (bytes "Format is incorrect!\n").length)],
        ch := ch, reg := r, undefined := false }
  else
    { events := broadcast_message net
        (snprintf (BUFFER_SIZE + NAME_SIZE + 2)
          (cstr nickname ++ bytes ": " ++ cstr buffer ++ bytes "\n"))
        client_socket r,
      ch := ch, reg := r, undefined := false }

/-- The inbound loop `while ((bytes_received = recv(...)) > 0)` of lines 146-201. -/
def inboundLoop (net : Transport) (malloc_ok : Nat → Bool) (nickname : List Byte)
    (client_socket : Int) (r : Registry) (ch : List Arrival) : Nat → Step
  | 0 => { events := [], ch := ch, reg := r, undefined := false }
  | fuel + 1 =>
    match recv ch (BUFFER_SIZE - 1) with
    | (none, ch1) => { events := [], ch := ch1, reg := r, undefined := false }
    | (some buffer, ch1) =>
      if buffer.length = 0 then { events := [], ch := ch1, reg := r, undefined := false }
      else
        let u := handle_unit net malloc_ok nickname client_socket r buffer ch1
        if u.undefined then u
        else
          let rest := inboundLoop net malloc_ok nickname client_socket u.reg u.ch fuel
          { events := u.events ++ rest.events, ch := rest.ch, reg := rest.reg,
            undefined := rest.undefined }

/-- The inbound loop run to its end: every `recv` that returns data shortens what
is still to arrive, so `chSize ch + 1` iterations are enough. -/
def inbound (net : Transport) (malloc_ok : Nat → Bool) (nickname : List Byte)
    (client_socket : Int) (r : Registry) (ch : List Arrival) : Step :=
  inboundLoop net malloc_ok nickname client_socket r ch (chSize ch + 1)

/-- The teardown of lines 204-211: the leave notice, then the removal under the
mutex; the events and the globals afterwards. -/
def leave (net : Transport) (nickname : List Byte) (client_socket : Int) (r : Registry) :
    List Event × Registry :=
  (broadcast_message net (snprintf BUFFER_SIZE (cstr nickname ++ bytes " left the chatroom\n"))
      client_socket r
    ++ [Event.lock, Event.unlock],
   remove_client client_socket r)

/-- The result of a session thread. -/
structure Session where
  events : List Event
  /-- The globals when the thread ends. -/
  reg : Registry
  /-- The thread ran into undefined behaviour; `events` are those before it. -/
  undefined : Bool
deriving DecidableEq, Repr

/-- The registration of lines 126-129: `add_client` and, when it succeeds, the
`strncpy` of the nickname into the slot `clients[client_count - 1]`; the result of
`add_client` and the globals afterwards. -/
def admission (client_socket : Int) (nickname : List Byte) (r : Registry) : Int × Registry :=
  let a := add_client client_socket r
  if a.1 ≠ 0 then
    let i := (a.2.client_count - 1).toNat
    let slot := a.2.clients.getD i default
    (a.1,
     { clients := a.2.clients.set i
         { socket := slot.socket, nickname := strncpy slot.nickname nickname (NAME_SIZE - 1) },
       client_count := a.2.client_count })
  else
    (a.1, a.2)

/-- The function `handle_client` for the connection `client_socket`, run without interference
from other threads, on the globals `r` and the arrivals `ch`. -/
def handle_client (net : Transport) (malloc_ok : Nat → Bool) (client_socket : Int)
    (r : Registry) (ch : List Arrival) : Session :=
  match recv ch (NAME_SIZE - 1) with
  | (some nickname, ch1) =>
    if 0 < nickname.length then
      let a := admission client_socket nickname r
      if a.1 ≠ 0 then
        let join := broadcast_message net
          (snprintf BUFFER_SIZE (cstr nickname ++ bytes " joined the chatroom\n")) client_socket a.2
        let lp := inbound net malloc_ok nickname client_socket a.2 ch1
        if lp.undefined then
          { events := [Event.lock, Event.unlock] ++ join ++ lp.events, reg := lp.reg,
            undefined := true }
        else
          let bye := leave net nickname client_socket lp.reg
          { events := [Event.lock, Event.unlock] ++ join ++ lp.events ++ bye.1
              ++ [Event.close client_socket],
            reg := bye.2, undefined := false }
      else
        { events :=
            [Event.lock,
             Event.send client_socket (bytes "Max clients reached. Connection refused.\n")
               (sendRet net client_socket (bytes "Max clients reached. Connection refused.\n").length),
             Event.close client_socket,
             Event.unlock],
          reg := a.2, undefined := false }
    else
      { events := [Event.lock, Event.unlock, Event.close client_socket],
        reg := remove_client client_socket r, undefined := false }
  | (none, _) =>
    { events := [Event.close client_socket], reg := r, undefined := false }

/-- The live entries a broadcast from `sender_socket` is addressed to: those whose
socket differs from the sender's, in table order. -/
def recipients (r : Registry) (sender_socket : Int) : List clientInfo_t :=
  r.registered.filter (fun c => decide (c.socket ≠ sender_socket))

/-- Every event of the trace is a `send`. -/
def onlySends : List Event → Bool
  | [] => true
  | .send _ _ _ :: es => onlySends es
  | _ :: _ => false

/-- The connection ends here: the peer has closed it (nothing more arrives, or an
orderly shutdown is next), or the next `recv` fails. -/
def endsHere : List Arrival → Bool
  | [] => true
  | .error :: _ => true
  | .data bs :: _ => bs.length == 0

/-- The line of the wire grammar for a re-announced image,
`/i <nickname> <filename> <size> <width> <height>`, ended by a newline; the three
numbers are 32-bit patterns written in decimal as `INT32`. -/
def announcedLine (nickname filename : List Byte) (size width height : Nat) : List Byte :=
  bytes "/i " ++ nickname ++ bytes " " ++ filename ++ bytes " " ++ fmt_d (toInt32 size)
    ++ bytes " " ++ fmt_d (toInt32 width) ++ bytes " " ++ fmt_d (toInt32 height) ++ bytes "\n"

/-! ## Registry lemmas -/

theorem shiftLoop_length (cs : List clientInfo_t) (j k : Nat) :
    (shiftLoop cs j k).length = cs.length := by
  induction k generalizing cs j with
  | zero => rfl
  | succ k ih => simp [shiftLoop, ih]

theorem shiftLoop_getElem? (cs : List clientInfo_t) (j k x : Nat) (h : j + k < cs.length) :
    (shiftLoop cs j k)[x]? = if j ≤ x ∧ x < j + k then cs[x + 1]? else cs[x]? := by
  induction k generalizing cs j with
  | zero =>
    have h0 : ¬ (j ≤ x ∧ x < j + 0) := by omega
    simp only [shiftLoop, h0, if_false]
  | succ k ih =>
    have hlen : j + 1 + k < (cs.set j (cs.getD (j + 1) default)).length := by
      simp; omega
    rw [shiftLoop, ih _ _ hlen]
    have hj1 : j + 1 < cs.length := by omega
    by_cases hx : x = j
    · subst hx
      simp [List.getElem?_set, List.getD_eq_getElem?_getD, List.getElem?_eq_getElem hj1]
      omega
    · simp only [List.getElem?_set]
      by_cases h1 : j + 1 ≤ x ∧ x < j + 1 + k
      · have h2 : j ≤ x ∧ x < j + (k + 1) := by omega
        have h3 : ¬ j = x + 1 := by omega
        simp [h1, h2, h3]
      · have h2 : ¬ (j ≤ x ∧ x < j + (k + 1)) := by omega
        have h3 : ¬ j = x := fun e => hx e.symm
        simp [h1, h2, h3]

theorem shiftLoop_take (cs : List clientInfo_t) (i n : Nat) (hi : i < n) (hn : n ≤ cs.length) :
    (shiftLoop cs i (n - 1 - i)).take (n - 1) = cs.take i ++ (cs.take n).drop (i + 1) := by
  apply List.ext_getElem?
  intro x
  have hlen : i + (n - 1 - i) < cs.length := by omega
  rw [List.getElem?_take, shiftLoop_getElem? cs i (n - 1 - i) x hlen, List.getElem?_append,
    List.getElem?_drop, List.getElem?_take, List.getElem?_take]
  simp only [List.length_take]
  have hmin : min i cs.length = i := by omega
  rw [hmin]
  by_cases h1 : x < i
  · have h2 : x < n - 1 := by omega
    have h3 : ¬ (i ≤ x ∧ x < i + (n - 1 - i)) := by omega
    simp [h1, h2, h3]
  · by_cases h2 : x < n - 1
    · have h3 : i ≤ x ∧ x < i + (n - 1 - i) := by omega
      have h4 : i + 1 + (x - i) = x + 1 := by omega
      have h5 : x + 1 < n := by omega
      simp [h1, h2, h3, h4, h5]
    · have h4 : ¬ (i + 1 + (x - i) < n) := by omega
      simp [h1, h2, h4]

/-- The entries of a registry with the given table and count. -/
theorem registered_mk (cs : List clientInfo_t) (n : Int) :
    (Registry.mk cs n).registered = cs.take n.toNat := rfl

/-- What the outer loop of `remove_client` does to the live entries: started at
index `i`, it erases the first entry at or after `i` that holds the handle. -/
theorem removeLoop_registered (h : Int) (r : Registry) (hwf : r.WF) (k i : Nat)
    (hik : i + k = r.client_count.toNat) :
    (removeLoop h r i k).registered =
      r.clients.take i ++
        (r.registered.drop i).eraseP (fun c => decide (c.socket = h)) := by
  obtain ⟨hlen, h0, h5⟩ := hwf
  have hn : r.client_count.toNat ≤ r.clients.length := by
    simp only [MAX_CLIENTS] at h5 hlen; omega
  induction k generalizing i with
  | zero =>
    have hi : i = r.client_count.toNat := by omega
    simp only [removeLoop, Registry.registered]
    subst hi
    simp
  | succ k ih =>
    have hi : i < r.client_count.toNat := by omega
    have hil : i < r.clients.length := by omega
    have hdrop : r.registered.drop i = r.clients[i] :: r.registered.drop (i + 1) := by
      have hl : i < r.registered.length := by
        simp only [Registry.registered, List.length_take]; omega
      rw [List.drop_eq_getElem_cons hl]
      simp [Registry.registered]
    have hget : r.clients.getD i default = r.clients[i] := by
      simp [List.getD_eq_getElem?_getD, List.getElem?_eq_getElem hil]
    rw [removeLoop, hget, hdrop, List.eraseP_cons]
    by_cases hs : r.clients[i].socket = h
    · simp only [hs, if_true, decide_True, cond_true, registered_mk]
      have e1 : (r.client_count - 1).toNat = r.client_count.toNat - 1 := by omega
      have e2 : (r.client_count - 1 - (i : Int)).toNat = r.client_count.toNat - 1 - i := by omega
      rw [e1, e2, shiftLoop_take _ _ _ hi hn]
      rfl
    · simp only [hs, if_false, decide_False, cond_false]
      rw [ih (i + 1) (by omega), List.take_succ, List.getElem?_eq_getElem hil]
      simp only [Option.toList, List.append_assoc, List.singleton_append]

theorem remove_client_registered (h : Int) (r : Registry) (hwf : r.WF) :
    (remove_client h r).registered =
      r.registered.eraseP (fun c => decide (c.socket = h)) := by
  have := removeLoop_registered h r hwf r.client_count.toNat 0 (by omega)
  simpa [remove_client] using this

/-- The outer loop of `remove_client` changes nothing when no slot it visits
holds the handle. -/
theorem removeLoop_absent (h : Int) (r : Registry) (k i : Nat)
    (hno : ∀ x, i ≤ x → x < i + k → (r.clients.getD x default).socket ≠ h) :
    removeLoop h r i k = r := by
  induction k generalizing i with
  | zero => rfl
  | succ k ih =>
    have h1 := hno i (le_refl i) (by omega)
    rw [removeLoop, if_neg h1]
    exact ih (i + 1) (fun x hx hlt => hno x (by omega) (by omega))

theorem remove_client_absent (h : Int) (r : Registry) (hwf : r.WF) (hno : h ∉ r.sockets) :
    remove_client h r = r := by
  obtain ⟨hlen, h0, h5⟩ := hwf
  apply removeLoop_absent
  intro x _ hx he
  apply hno
  have hxl : x < r.clients.length := by simp only [MAX_CLIENTS] at h5 hlen; omega
  have hget : r.clients.getD x default = r.clients[x] := by
    simp [List.getD_eq_getElem?_getD, List.getElem?_eq_getElem hxl]
  rw [hget] at he
  simp only [Registry.sockets, Registry.registered, List.mem_map]
  refine ⟨r.clients[x], ?_, he⟩
  rw [List.mem_take_iff_getElem]
  exact ⟨x, by omega, rfl⟩

theorem removeLoop_shape (h : Int) (r : Registry) (k i : Nat) :
    (removeLoop h r i k).clients.length = r.clients.length ∧
      ((removeLoop h r i k).client_count = r.client_count ∨
        (0 < k ∧ (removeLoop h r i k).client_count = r.client_count - 1)) := by
  induction k generalizing i with
  | zero => simp [removeLoop]
  | succ k ih =>
    rw [removeLoop]
    split
    · exact ⟨by simp [shiftLoop_length], Or.inr ⟨by omega, rfl⟩⟩
    · obtain ⟨h1, h2⟩ := ih (i + 1)
      refine ⟨h1, ?_⟩
      rcases h2 with h2 | ⟨_, h2⟩
      · exact Or.inl h2
      · exact Or.inr ⟨by omega, h2⟩

theorem remove_client_WF (h : Int) (r : Registry) (hwf : r.WF) : (remove_client h r).WF := by
  obtain ⟨hlen, h0, h5⟩ := hwf
  obtain ⟨h1, h2⟩ := removeLoop_shape h r r.client_count.toNat 0
  refine ⟨by rw [remove_client, h1]; exact hlen, ?_, ?_⟩
  · rcases h2 with h2 | ⟨hk, h2⟩ <;> simp only [remove_client] <;> omega
  · rcases h2 with h2 | ⟨hk, h2⟩ <;> simp only [remove_client] <;> omega

theorem add_client_WF (s : Int) (r : Registry) (hwf : r.WF) : (add_client s r).2.WF := by
  obtain ⟨hlen, h0, h5⟩ := hwf
  unfold add_client
  split
  · refine ⟨by simpa using hlen, ?_, ?_⟩ <;> simp only [] <;> omega
  · exact ⟨hlen, h0, h5⟩

theorem add_client_registered (s : Int) (r : Registry) (hwf : r.WF)
    (hlt : r.client_count < MAX_CLIENTS) :
    (add_client s r).2.registered =
      r.registered ++
        [{ r.clients.getD r.client_count.toNat default with socket := s }] := by
  obtain ⟨hlen, h0, h5⟩ := hwf
  have hn : r.client_count.toNat < r.clients.length := by
    simp only [MAX_CLIENTS] at hlt hlen; omega
  simp only [add_client, if_pos hlt, registered_mk, Registry.registered]
  have e : (r.client_count + 1).toNat = r.client_count.toNat + 1 := by omega
  rw [e, List.take_succ, List.getElem?_set_self hn]
  have ht : ∀ (v : clientInfo_t) (n : Nat) (cs : List clientInfo_t),
      (cs.set n v).take n = cs.take n := by
    intro v n cs
    apply List.ext_getElem?
    intro x
    simp only [List.getElem?_take, List.getElem?_set]
    by_cases hx : x < n
    · have hne : ¬ n = x := by omega
      simp [hx, hne]
    · simp [hx]
  rw [ht]
  rfl

theorem initial_WF : Registry.initial.WF := by decide

theorem runOps_WF (ops : List RegOp) (r : Registry) (hwf : r.WF) : (runOps ops r).WF := by
  induction ops generalizing r with
  | nil => exact hwf
  | cons op ops ih =>
    cases op with
    | add s => exact ih _ (add_client_WF s r hwf)
    | remove s => exact ih _ (remove_client_WF s r hwf)

theorem sockets_add_client (s : Int) (r : Registry) (hwf : r.WF)
    (hlt : r.client_count < MAX_CLIENTS) :
    (add_client s r).2.sockets = r.sockets ++ [s] := by
  simp [Registry.sockets, add_client_registered s r hwf hlt]

theorem add_client_full (s : Int) (r : Registry) (hge : ¬ r.client_count < MAX_CLIENTS) :
    add_client s r = (0, r) := by
  unfold add_client
  rw [if_neg hge]

theorem sockets_remove_client (h : Int) (r : Registry) (hwf : r.WF) :
    (remove_client h r).sockets =
      (r.registered.eraseP (fun c => decide (c.socket = h))).map (fun c => c.socket) := by
  simp [Registry.sockets, remove_client_registered h r hwf]

/-- Erasing the first entry that holds `h` leaves no entry holding `h` when at most
one did. -/
theorem eraseP_socket_absent (h : Int) (l : List clientInfo_t)
    (hc : List.count h (l.map (fun c => c.socket)) ≤ 1) :
    h ∉ (l.eraseP (fun c => decide (c.socket = h))).map (fun c => c.socket) := by
  induction l with
  | nil => simp
  | cons c l ih =>
    rw [List.eraseP_cons]
    by_cases hs : c.socket = h
    · simp only [hs, decide_True, cond_true]
      intro hmem
      have hpos : 0 < List.count h (l.map (fun c => c.socket)) := List.count_pos_iff.mpr hmem
      simp only [List.map_cons, hs, List.count_cons_self] at hc
      omega
    · simp only [hs, decide_False, cond_false, List.map_cons, List.mem_cons, not_or]
      refine ⟨fun e => hs e.symm, ih ?_⟩
      simp only [List.map_cons] at hc
      rw [List.count_cons_of_ne (fun e => hs e.symm)] at hc
      exact hc

theorem joins_spec (socks : List Int) (r : Registry) (hwf : r.WF)
    (hroom : r.client_count + socks.length ≤ MAX_CLIENTS) :
    (joins socks r).1 = List.replicate socks.length 1 ∧
      (joins socks r).2.client_count = r.client_count + socks.length ∧
      (joins socks r).2.WF := by
  induction socks generalizing r with
  | nil => simp [joins, hwf]
  | cons s ss ih =>
    simp only [List.length_cons, Nat.cast_add, Nat.cast_one] at hroom
    have hlt : r.client_count < MAX_CLIENTS := by omega
    have hcnt : (add_client s r).2.client_count = r.client_count + 1 := by
      unfold add_client
      rw [if_pos hlt]
    have hret : (add_client s r).1 = 1 := by
      unfold add_client
      rw [if_pos hlt]
    obtain ⟨h1, h2, h3⟩ := ih (add_client s r).2 (add_client_WF s r hwf) (by rw [hcnt]; omega)
    refine ⟨?_, ?_, ?_⟩
    · simp only [joins, hret, h1, List.length_cons, List.replicate_succ]
    · simp only [joins, h2, hcnt, List.length_cons, Nat.cast_add, Nat.cast_one]; omega
    · simpa only [joins] using h3

theorem runOps_nodup (ops : List RegOp) (r : Registry) (hwf : r.WF) (hnd : r.sockets.Nodup)
    (hfresh : freshAdds ops r = true) : (runOps ops r).sockets.Nodup := by
  induction ops generalizing r with
  | nil => exact hnd
  | cons op ops ih =>
    cases op with
    | add s =>
      simp only [freshAdds, Bool.and_eq_true, decide_eq_true_eq] at hfresh
      refine ih _ (add_client_WF s r hwf) ?_ hfresh.2
      show (add_client s r).2.sockets.Nodup
      by_cases hlt : r.client_count < MAX_CLIENTS
      · rw [sockets_add_client s r hwf hlt]
        exact List.Nodup.append hnd (List.nodup_singleton s) (by simpa using hfresh.1)
      · rw [add_client_full s r hlt]; exact hnd
    | remove s =>
      simp only [freshAdds] at hfresh
      refine ih _ (remove_client_WF s r hwf) ?_ hfresh
      show (remove_client s r).sockets.Nodup
      rw [sockets_remove_client s r hwf]
      exact List.Nodup.sublist ((List.eraseP_sublist _).map _) hnd

/-! ## Claims about the registry -/

/-- C1. Starting from the empty registry, after every finite sequence of `add_client`
and `remove_client` calls `client_count` is between 0 and 5; the next `add_client`
returns 1 exactly when `client_count` is below 5 and 0 exactly when it is 5, in which
case it leaves the globals alone; `N ≤ 5` consecutive joins on the empty registry all
return 1 and leave `client_count = N`, and a join after five of them returns 0. -/
theorem registry_capacity (ops : List RegOp) (socket : Int) (socks : List Int) :
    (0 ≤ (runOps ops Registry.initial).client_count ∧
      (runOps ops Registry.initial).client_count ≤ 5) ∧
    ((add_client socket (runOps ops Registry.initial)).1 = 1 ↔
      (runOps ops Registry.initial).client_count < 5) ∧
    ((add_client socket (runOps ops Registry.initial)).1 = 0 ↔
      (runOps ops Registry.initial).client_count = 5) ∧
    ((runOps ops Registry.initial).client_count = 5 →
      (add_client socket (runOps ops Registry.initial)).2 = runOps ops Registry.initial) ∧
    (socks.length ≤ 5 →
      (joins socks Registry.initial).1 = List.replicate socks.length 1 ∧
      (joins socks Registry.initial).2.client_count = socks.length) ∧
    (socks.length = 5 →
      (add_client socket (joins socks Registry.initial).2).1 = 0 ∧
      (add_client socket (joins socks Registry.initial).2).2.client_count = 5) := by
  obtain ⟨_, h0, h5⟩ := runOps_WF ops Registry.initial initial_WF
  simp only [MAX_CLIENTS, Nat.cast_ofNat] at h5
  refine ⟨⟨h0, h5⟩, ?_, ?_, ?_, ?_, ?_⟩
  · unfold add_client
    split <;> rename_i hlt <;> simp only [MAX_CLIENTS, Nat.cast_ofNat] at hlt <;> simp [hlt]
  · unfold add_client
    split <;> rename_i hlt <;> simp only [MAX_CLIENTS, Nat.cast_ofNat] at hlt <;> simp <;> omega
  · intro h
    rw [add_client_full]
    simp only [MAX_CLIENTS, Nat.cast_ofNat]; omega
  · intro hN
    obtain ⟨h1, h2, _⟩ := joins_spec socks Registry.initial initial_WF
      (by simp only [Registry.initial, MAX_CLIENTS]; omega)
    refine ⟨h1, ?_⟩
    rw [h2]; simp [Registry.initial]
  · intro hN
    obtain ⟨_, h2, _⟩ := joins_spec socks Registry.initial initial_WF
      (by simp only [Registry.initial, MAX_CLIENTS]; omega)
    have h5 : (joins socks Registry.initial).2.client_count = 5 := by
      rw [h2, hN]; simp [Registry.initial]
    rw [add_client_full]
    · exact ⟨rfl, h5⟩
    · simp only [MAX_CLIENTS, Nat.cast_ofNat]; omega

/-- C1, at the calls add 7, add 8, remove 7 and the joins 1, 2, 3, 4, 5. -/
theorem registry_capacity_witness :
    (0 ≤ (runOps [.add 7, .add 8, .remove 7] Registry.initial).client_count ∧
      (runOps [.add 7, .add 8, .remove 7] Registry.initial).client_count ≤ 5) ∧
    (joins [1, 2, 3, 4, 5] Registry.initial).1 = [1, 1, 1, 1, 1] ∧
    (add_client 6 (joins [1, 2, 3, 4, 5] Registry.initial).2).1 = 0 :=
  have h := registry_capacity [.add 7, .add 8, .remove 7] 6 [1, 2, 3, 4, 5]
  ⟨h.1, (h.2.2.2.2.1 (by decide)).1, (h.2.2.2.2.2 (by decide)).1⟩

/-- C3, counterexample: after `add_client(3)` twice on the empty registry two live
entries hold handle 3; the first `remove_client(3)` removes one of them and a second
`remove_client(3)` removes the other. -/
theorem remove_twice_counterexample :
    (runOps [.add 3, .add 3] Registry.initial).sockets = [3, 3] ∧
      (remove_client 3 (runOps [.add 3, .add 3] Registry.initial)).sockets = [3] ∧
      (remove_client 3 (remove_client 3 (runOps [.add 3, .add 3] Registry.initial))).sockets
        = [] ∧
      remove_client 3 (remove_client 3 (runOps [.add 3, .add 3] Registry.initial)) ≠
        remove_client 3 (runOps [.add 3, .add 3] Registry.initial) := by
  decide

/-- C3, amended. On a well-formed registry, `remove_client(h)` leaves the table and
`client_count` unchanged when no live entry holds `h`; and when at most one live
entry holds `h`, calling it twice in a row yields the same registry as calling it
once. -/
theorem remove_client_idempotent (h : Int) (r : Registry) (hwf : r.WF) :
    (h ∉ r.sockets → remove_client h r = r) ∧
    (List.count h r.sockets ≤ 1 →
      remove_client h (remove_client h r) = remove_client h r) := by
  refine ⟨remove_client_absent h r hwf, fun hc => ?_⟩
  apply remove_client_absent h _ (remove_client_WF h r hwf)
  rw [sockets_remove_client h r hwf]
  exact eraseP_socket_absent h r.registered hc

/-- C3, amended, at the registry holding the handles 3, 4, 5. -/
theorem remove_client_idempotent_witness :
    remove_client 9 ⟨[⟨3, []⟩, ⟨4, []⟩, ⟨5, []⟩, default, default], 3⟩ =
        ⟨[⟨3, []⟩, ⟨4, []⟩, ⟨5, []⟩, default, default], 3⟩ ∧
      remove_client 4 (remove_client 4 ⟨[⟨3, []⟩, ⟨4, []⟩, ⟨5, []⟩, default, default], 3⟩) =
        remove_client 4 ⟨[⟨3, []⟩, ⟨4, []⟩, ⟨5, []⟩, default, default], 3⟩ :=
  ⟨(remove_client_idempotent 9 ⟨[⟨3, []⟩, ⟨4, []⟩, ⟨5, []⟩, default, default], 3⟩
      (by decide)).1 (by decide),
   (remove_client_idempotent 4 ⟨[⟨3, []⟩, ⟨4, []⟩, ⟨5, []⟩, default, default], 3⟩
      (by decide)).2 (by decide)⟩

/-- C8, counterexample: two `add_client` calls with the same handle leave two live
entries holding it. -/
theorem handle_uniqueness_counterexample :
    ¬ (runOps [.add 3, .add 3] Registry.initial).sockets.Nodup := by
  decide

/-- C8, amended. In every registry state reached from the empty registry by
`add_client` and `remove_client` calls in which every `add_client` is given a handle
that no live entry holds at the time of the call, no two of the first `client_count`
entries hold the same socket. -/
theorem handle_uniqueness (ops : List RegOp)
    (hfresh : freshAdds ops Registry.initial = true) :
    (runOps ops Registry.initial).sockets.Nodup :=
  runOps_nodup ops Registry.initial initial_WF (by decide) hfresh

/-- C8, amended, at the calls add 3, add 4, remove 3, add 3. -/
theorem handle_uniqueness_witness :
    (runOps [.add 3, .add 4, .remove 3, .add 3] Registry.initial).sockets.Nodup :=
  handle_uniqueness [.add 3, .add 4, .remove 3, .add 3] (by decide)

/-! ## Lemmas about strings and traces -/

theorem cstr_of_no_nul (l : List Byte) (h : 0 ∉ l) : cstr l = l := by
  unfold cstr
  rw [List.takeWhile_eq_self_iff]
  intro x hx
  have : x ≠ 0 := fun e => h (e ▸ hx)
  simpa using this

theorem cstr_no_nul (l : List Byte) : 0 ∉ cstr l := by
  unfold cstr
  intro h
  have := List.mem_takeWhile_imp h
  simp at this

theorem cstr_length_le (l : List Byte) : (cstr l).length ≤ l.length := by
  unfold cstr
  exact (List.takeWhile_sublist _).length_le

theorem sendCalls_append (a b : List Event) :
    sendCalls (a ++ b) = sendCalls a ++ sendCalls b := by
  induction a with
  | nil => rfl
  | cons e a ih => cases e <;> simp [sendCalls, ih]

theorem delivered_append (s : Int) (a b : List Event) :
    delivered s (a ++ b) = delivered s a ++ delivered s b := by
  induction a with
  | nil => rfl
  | cons e a ih =>
    cases e with
    | send s1 buf ret =>
      cases ret with
      | none => simp [delivered, ih]
      | some k =>
        by_cases h : s1 = s <;> simp [delivered, ih, h]
    | lock => simp [delivered, ih]
    | unlock => simp [delivered, ih]
    | close _ => simp [delivered, ih]

/-- The slot the table loops read at index `i` is the head of the live entries
from `i` on. -/
theorem registered_drop (r : Registry) (hwf : r.WF) (i : Nat) (hi : i < r.client_count.toNat) :
    r.registered.drop i = r.clients.getD i default :: r.registered.drop (i + 1) := by
  obtain ⟨hlen, h0, h5⟩ := hwf
  have hil : i < r.clients.length := by simp only [MAX_CLIENTS] at h5 hlen; omega
  have hl : i < r.registered.length := by
    simp only [Registry.registered, List.length_take]; omega
  rw [List.drop_eq_getElem_cons hl]
  simp [Registry.registered, List.getD_eq_getElem?_getD, List.getElem?_eq_getElem hil]

theorem registered_drop_all (r : Registry) (i : Nat) (hi : r.client_count.toNat ≤ i) :
    r.registered.drop i = [] := by
  apply List.drop_eq_nil_of_le
  simp only [Registry.registered, List.length_take]
  omega

/-- The table loop of `broadcast_message` and `broadcast_image_header` makes one
`send` per addressed live entry, in table order. -/
theorem broadcastLoop_eq (net : Transport) (msg : List Byte) (sender : Int) (r : Registry)
    (hwf : r.WF) (k i : Nat) (hik : i + k = r.client_count.toNat) :
    broadcastLoop net msg sender r i k =
      ((r.registered.drop i).filter (fun c => decide (c.socket ≠ sender))).map
        (fun c => Event.send c.socket msg (sendRet net c.socket msg.length)) := by
  induction k generalizing i with
  | zero =>
    rw [registered_drop_all r i (by omega)]
    rfl
  | succ k ih =>
    rw [broadcastLoop, ih (i + 1) (by omega), registered_drop r hwf i (by omega),
      List.filter_cons]
    generalize r.clients.getD i default = c
    by_cases hs : c.socket = sender
    · simp [hs]
    · simp [hs]

theorem broadcast_message_eq (net : Transport) (message : List Byte) (sender : Int)
    (r : Registry) (hwf : r.WF) :
    broadcast_message net message sender r =
      [Event.lock] ++
        (recipients r sender).map
          (fun c => Event.send c.socket (cstr message)
            (sendRet net c.socket (cstr message).length)) ++ [Event.unlock] := by
  unfold broadcast_message recipients
  rw [broadcastLoop_eq net _ sender r hwf _ 0 (by omega)]
  simp

theorem sendCalls_map_send (l : List clientInfo_t) (msg : List Byte)
    (g : clientInfo_t → Option Nat) :
    sendCalls (l.map (fun c => Event.send c.socket msg (g c))) =
      l.map (fun c => (c.socket, msg)) := by
  induction l with
  | nil => rfl
  | cons c l ih => simp [sendCalls, ih]

theorem sendCalls_broadcast_message (net : Transport) (message : List Byte) (sender : Int)
    (r : Registry) (hwf : r.WF) :
    sendCalls (broadcast_message net message sender r) =
      (recipients r sender).map (fun c => (c.socket, cstr message)) := by
  rw [broadcast_message_eq net message sender r hwf, sendCalls_append, sendCalls_append,
    sendCalls_map_send]
  simp [sendCalls]

theorem recipients_socket_ne (r : Registry) (sender : Int) (c : clientInfo_t)
    (hc : c ∈ recipients r sender) : c.socket ≠ sender := by
  simp only [recipients, List.mem_filter, decide_eq_true_eq] at hc
  exact hc.2

/-! ## Claims about chat units -/

theorem take3_of_cstr (t : List Byte) (h : (cstr t).take 3 = bytes "/i ") :
    t.take 3 = bytes "/i " := by
  obtain ⟨rest, hrest⟩ : cstr t <+: t := List.takeWhile_prefix _
  have hlen : 3 ≤ (cstr t).length := by
    have := congrArg List.length h
    rw [List.length_take] at this
    have h3 : (bytes "/i ").length = 3 := rfl
    omega
  rw [← hrest, List.take_append_of_le_length hlen]
  exact h

/-- The chat line built at line 198 is not cut by `snprintf` and holds no NUL. -/
theorem chat_message (n t : List Byte) (hn : n.length ≤ 9) (ht : t.length ≤ 1023) :
    cstr (snprintf (BUFFER_SIZE + NAME_SIZE + 2)
        (cstr n ++ bytes ": " ++ cstr t ++ bytes "\n")) =
      cstr n ++ bytes ": " ++ cstr t ++ bytes "\n" := by
  have h1 := cstr_length_le n
  have h2 := cstr_length_le t
  have hlen : (cstr n ++ bytes ": " ++ cstr t ++ bytes "\n").length
      ≤ BUFFER_SIZE + NAME_SIZE + 2 - 1 := by
    simp only [List.length_append, show (bytes ": ").length = 2 from rfl,
      show (bytes "\n").length = 1 from rfl, BUFFER_SIZE, NAME_SIZE]
    omega
  rw [snprintf, List.take_of_length_le hlen]
  apply cstr_of_no_nul
  simp only [List.mem_append, not_or]
  exact ⟨⟨⟨cstr_no_nul n, by decide⟩, cstr_no_nul t⟩, by decide⟩

/-- C2, counterexample: the text `h`, NUL, `i` from alice is relayed to bob and
carol as `alice: h` and a newline, without the bytes from the NUL on: what they are
sent is not the text verbatim. -/
theorem chat_fanout_counterexample :
    sendCalls (handle_unit reliable (fun _ => true) (bytes "alice") 4
        ⟨[⟨4, []⟩, ⟨5, []⟩, ⟨6, []⟩, default, default], 3⟩ [104, 0, 105] []).events =
        [(5, bytes "alice: h\n"), (6, bytes "alice: h\n")] ∧
      sendCalls (handle_unit reliable (fun _ => true) (bytes "alice") 4
        ⟨[⟨4, []⟩, ⟨5, []⟩, ⟨6, []⟩, default, default], 3⟩ [104, 0, 105] []).events ≠
      (recipients ⟨[⟨4, []⟩, ⟨5, []⟩, ⟨6, []⟩, default, default], 3⟩ 4).map
        (fun c => (c.socket, bytes "alice" ++ bytes ": " ++ [104, 0, 105] ++ bytes "\n")) := by
  decide

/-- C2, amended. For every well-formed registry state, every sender socket `A`
whose handshake bytes are `n` (at most 9; the nickname is `cstr n`, the bytes before
the first NUL) and every chat text `t` of at most 1023 bytes that does not begin
with `/i `, the loop body makes exactly one `send` of the bytes nickname, `: `,
`cstr t`, newline to every live entry whose socket differs from `A`, in table order,
and no other `send`: the text is relayed up to its first NUL byte, and so verbatim
when it holds none (and the nickname is `n` when `n` holds none). No `send` goes to
`A`; the body leaves the globals and the pending input alone. -/
theorem chat_fanout (net : Transport) (malloc_ok : Nat → Bool) (n t : List Byte) (A : Int)
    (r : Registry) (ch : List Arrival) (hwf : r.WF) (hn : n.length ≤ 9)
    (ht : t.length ≤ 1023) (hpre : t.take 3 ≠ bytes "/i ") :
    sendCalls (handle_unit net malloc_ok n A r t ch).events =
        (recipients r A).map
          (fun c => (c.socket, cstr n ++ bytes ": " ++ cstr t ++ bytes "\n")) ∧
      (0 ∉ n → 0 ∉ t →
        sendCalls (handle_unit net malloc_ok n A r t ch).events =
          (recipients r A).map (fun c => (c.socket, n ++ bytes ": " ++ t ++ bytes "\n"))) ∧
      (∀ p ∈ sendCalls (handle_unit net malloc_ok n A r t ch).events, p.1 ≠ A) ∧
      (handle_unit net malloc_ok n A r t ch).reg = r ∧
      (handle_unit net malloc_ok n A r t ch).ch = ch ∧
      (handle_unit net malloc_ok n A r t ch).undefined = false := by
  have hbranch : ¬ (cstr t).take 3 = bytes "/i " := fun h => hpre (take3_of_cstr t h)
  have hev : sendCalls (handle_unit net malloc_ok n A r t ch).events =
      (recipients r A).map
        (fun c => (c.socket, cstr n ++ bytes ": " ++ cstr t ++ bytes "\n")) := by
    unfold handle_unit
    rw [if_neg hbranch]
    simp only []
    rw [sendCalls_broadcast_message _ _ _ _ hwf, chat_message n t hn ht]
  refine ⟨hev, ?_, ?_, ?_, ?_, ?_⟩
  · intro hn0 ht0
    rw [hev, cstr_of_no_nul n hn0, cstr_of_no_nul t ht0]
  · intro p hp
    rw [hev, List.mem_map] at hp
    obtain ⟨c, hc, rfl⟩ := hp
    exact recipients_socket_ne r A c hc
  · unfold handle_unit; rw [if_neg hbranch]
  · unfold handle_unit; rw [if_neg hbranch]
  · unfold handle_unit; rw [if_neg hbranch]

/-- C2, amended, at alice (socket 4) sending `hello` while bob (5) and carol (6) are
registered: bob and carol are each sent `alice: hello` and a newline; and at alice
sending `h`, NUL, `i`: they are each sent `alice: h` and a newline. -/
theorem chat_fanout_witness :
    sendCalls (handle_unit reliable (fun _ => true) (bytes "alice") 4
        ⟨[⟨4, []⟩, ⟨5, []⟩, ⟨6, []⟩, default, default], 3⟩ (bytes "hello") []).events =
        [(5, bytes "alice: hello\n"), (6, bytes "alice: hello\n")] ∧
      sendCalls (handle_unit reliable (fun _ => true) (bytes "alice") 4
        ⟨[⟨4, []⟩, ⟨5, []⟩, ⟨6, []⟩, default, default], 3⟩ [104, 0, 105] []).events =
        [(5, bytes "alice: h\n"), (6, bytes "alice: h\n")] :=
  ⟨(chat_fanout reliable (fun _ => true) (bytes "alice") (bytes "hello") 4
      ⟨[⟨4, []⟩, ⟨5, []⟩, ⟨6, []⟩, default, default], 3⟩ [] (by decide) (by decide)
      (by decide) (by decide)).2.1 (by decide) (by decide),
   (chat_fanout reliable (fun _ => true) (bytes "alice") [104, 0, 105] 4
      ⟨[⟨4, []⟩, ⟨5, []⟩, ⟨6, []⟩, default, default], 3⟩ [] (by decide) (by decide)
      (by decide) (by decide)).1⟩

/-! ## The mutex and the network -/

theorem onlySends_append (a b : List Event) (ha : onlySends a = true) (hb : onlySends b = true) :
    onlySends (a ++ b) = true := by
  induction a with
  | nil => exact hb
  | cons e a ih => cases e <;> simp_all [onlySends]

theorem onlySends_broadcastLoop (net : Transport) (msg : List Byte) (sender : Int)
    (r : Registry) (k i : Nat) : onlySends (broadcastLoop net msg sender r i k) = true := by
  induction k generalizing i with
  | zero => rfl
  | succ k ih =>
    rw [broadcastLoop]
    apply onlySends_append _ _ _ (ih (i + 1))
    split <;> rfl

theorem onlySends_sendAll (net : Transport) (s : Int) (data : List Byte) (len sent fuel : Nat) :
    onlySends (sendAll net s data len sent fuel) = true := by
  induction fuel generalizing sent with
  | zero => rfl
  | succ fuel ih =>
    rw [sendAll]
    split
    · split
      · rfl
      · simpa [onlySends] using ih _
    · rfl

theorem onlySends_dataLoop (net : Transport) (data : List Byte) (len : Nat) (sender : Int)
    (r : Registry) (k i : Nat) : onlySends (dataLoop net data len sender r i k) = true := by
  induction k generalizing i with
  | zero => rfl
  | succ k ih =>
    rw [dataLoop]
    apply onlySends_append _ _ _ (ih (i + 1))
    split
    · exact onlySends_sendAll _ _ _ _ _ _
    · rfl

/-- With the mutex held, a run of `send` calls followed by the release is a trace in
which every `send` happens under the mutex. -/
theorem sendsUnderLock_sends (es : List Event) (h : onlySends es = true) :
    sendsUnderLock true (es ++ [Event.unlock]) = true := by
  induction es with
  | nil => rfl
  | cons e es ih => cases e <;> simp_all [onlySends, sendsUnderLock]

theorem sendsUnderLock_bracket (es : List Event) (h : onlySends es = true) :
    sendsUnderLock false ([Event.lock] ++ es ++ [Event.unlock]) = true := by
  simpa [sendsUnderLock] using sendsUnderLock_sends es h

/-- C10, counterexample: `broadcast_message` from socket 1 with socket 2 registered
calls `send` between `pthread_mutex_lock` and `pthread_mutex_unlock`. -/
theorem lock_across_send_counterexample :
    noSendWhileLocked false
      (broadcast_message reliable (bytes "hi\n") 1
        ⟨[⟨1, []⟩, ⟨2, []⟩, default, default, default], 2⟩) = false := by
  decide

/-- C10, amended. In every execution of `broadcast_message`, `broadcast_image_header`
and `broadcast_image_data`, and of `handle_client` on the rejection path (a nickname
arrives while the table is full), the trace acquires `clients_mutex` only when it is
free, releases it before returning, and every `send` in it happens between an
acquisition and its release: the mutex is held across the network writes. -/
theorem sends_under_lock (net : Transport) (malloc_ok : Nat → Bool) (msg filename nickname
    data nick : List Byte) (size : Int) (width height data_len : Nat) (sender : Int)
    (r : Registry) (ch ch1 : List Arrival) :
    sendsUnderLock false (broadcast_message net msg sender r) = true ∧
    sendsUnderLock false
      (broadcast_image_header net filename size sender nickname width height r) = true ∧
    sendsUnderLock false (broadcast_image_data net data data_len sender r) = true ∧
    (recv ch (NAME_SIZE - 1) = (some nick, ch1) → 0 < nick.length →
        ¬ r.client_count < MAX_CLIENTS →
      (handle_client net malloc_ok sender r ch).events =
          [Event.lock,
           Event.send sender (bytes "Max clients reached. Connection refused.\n")
             (sendRet net sender (bytes "Max clients reached. Connection refused.\n").length),
           Event.close sender, Event.unlock] ∧
        sendsUnderLock false (handle_client net malloc_ok sender r ch).events = true) := by
  refine ⟨?_, ?_, ?_, ?_⟩
  · exact sendsUnderLock_bracket _ (onlySends_broadcastLoop _ _ _ _ _ _)
  · exact sendsUnderLock_bracket _ (onlySends_broadcastLoop _ _ _ _ _ _)
  · exact sendsUnderLock_bracket _ (onlySends_dataLoop _ _ _ _ _ _ _)
  · intro hrecv hn hfull
    have hev : (handle_client net malloc_ok sender r ch).events =
        [Event.lock,
         Event.send sender (bytes "Max clients reached. Connection refused.\n")
           (sendRet net sender (bytes "Max clients reached. Connection refused.\n").length),
         Event.close sender, Event.unlock] := by
      have hadm : (admission sender nick r).1 = 0 := by
        unfold admission
        rw [add_client_full sender r hfull]
        rfl
      unfold handle_client
      rw [hrecv]
      simp only []
      rw [if_pos hn, if_neg (by rw [hadm]; decide)]
    exact ⟨hev, by rw [hev]; rfl⟩

/-- C10, amended, at a sixth connection (socket 6, nickname `eve`) to a full table. -/
theorem sends_under_lock_witness :
    sendsUnderLock false
      (handle_client reliable (fun _ => true) 6
        ⟨[⟨1, []⟩, ⟨2, []⟩, ⟨3, []⟩, ⟨4, []⟩, ⟨5, []⟩], 5⟩ [Arrival.data (bytes "eve")]).events
      = true :=
  ((sends_under_lock reliable (fun _ => true) [] [] [] [] (bytes "eve") 0 0 0 0 6
    ⟨[⟨1, []⟩, ⟨2, []⟩, ⟨3, []⟩, ⟨4, []⟩, ⟨5, []⟩], 5⟩ [Arrival.data (bytes "eve")] []).2.2.2
      (by decide) (by decide) (by decide)).2

/-! ## The inbound loop -/

/-- A `recv` never lengthens what is still to arrive. -/
theorem recv_chSize_le (ch : List Arrival) (len : Nat) : chSize (recv ch len).2 ≤ chSize ch := by
  cases ch with
  | nil => simp [recv]
  | cons a rest =>
    cases a with
    | error => simp [recv, chSize]
    | data bs =>
      simp only [recv]
      split
      · simp [chSize]
      · simp only [chSize, List.length_drop]; omega

/-- A `recv` that returns data shortens what is still to arrive. -/
theorem recv_chSize_lt (ch ch1 : List Arrival) (len : Nat) (b : List Byte) (hlen : 0 < len)
    (h : recv ch len = (some b, ch1)) (hb : b.length ≠ 0) : chSize ch1 < chSize ch := by
  cases ch with
  | nil =>
    simp only [recv, Prod.mk.injEq, Option.some.injEq] at h
    rw [← h.1] at hb; simp at hb
  | cons a rest =>
    cases a with
    | error => simp [recv] at h
    | data bs =>
      simp only [recv] at h
      split at h
      · simp only [Prod.mk.injEq] at h; rw [← h.2]; simp [chSize]
      · simp only [Prod.mk.injEq] at h
        rw [← h.2]; simp only [chSize, List.length_drop]; omega

theorem recvImage_chSize_le (image_size : Nat) (data : List Byte) (total : Nat)
    (ch : List Arrival) (fuel : Nat) :
    chSize (recvImage image_size data total ch fuel).ch ≤ chSize ch := by
  induction fuel generalizing data total ch with
  | zero => simp [recvImage]
  | succ fuel ih =>
    rw [recvImage]
    split
    · have hle := recv_chSize_le ch (image_size - total)
      rcases hr : recv ch (image_size - total) with ⟨res, ch1⟩
      rw [hr] at hle
      cases res with
      | none => exact hle
      | some got =>
        simp only []
        split
        · exact hle
        · split
          · exact hle
          · exact le_trans (ih _ _ _) hle
    · exact le_refl _

theorem handle_unit_reg (net : Transport) (malloc_ok : Nat → Bool) (n : List Byte) (A : Int)
    (r : Registry) (buffer : List Byte) (ch : List Arrival) :
    (handle_unit net malloc_ok n A r buffer ch).reg = r := by
  unfold handle_unit
  split
  · split
    · rfl
    · simp only []
      split
      · split <;> rfl
      · rfl
    · rfl
  · rfl

theorem handle_unit_chSize_le (net : Transport) (malloc_ok : Nat → Bool) (n : List Byte) (A : Int)
    (r : Registry) (buffer : List Byte) (ch : List Arrival) :
    chSize (handle_unit net malloc_ok n A r buffer ch).ch ≤ chSize ch := by
  unfold handle_unit
  split
  · split
    · exact le_refl _
    · simp only []
      split
      · split <;> exact recvImage_chSize_le _ _ _ _ _
      · exact le_refl _
    · exact le_refl _
  · exact le_refl _

/-- Enough fuel: the inbound loop with any fuel above `chSize ch` is the loop run to
its end. -/
theorem inboundLoop_fuel (net : Transport) (malloc_ok : Nat → Bool) (n : List Byte) (A : Int)
    (r : Registry) (ch : List Arrival) (fuel : Nat) (hf : chSize ch + 1 ≤ fuel) :
    inboundLoop net malloc_ok n A r ch fuel = inbound net malloc_ok n A r ch := by
  suffices h : ∀ (f1 f2 : Nat) (ch : List Arrival), chSize ch + 1 ≤ f1 → chSize ch + 1 ≤ f2 →
      inboundLoop net malloc_ok n A r ch f1 = inboundLoop net malloc_ok n A r ch f2 from
    h fuel (chSize ch + 1) ch hf (le_refl _)
  intro f1
  induction f1 with
  | zero => intro f2 ch h1; omega
  | succ f1 ih =>
    intro f2 ch h1 h2
    obtain ⟨f2, rfl⟩ : ∃ k, f2 = k + 1 := ⟨f2 - 1, by omega⟩
    rw [inboundLoop, inboundLoop]
    rcases hr : recv ch (BUFFER_SIZE - 1) with ⟨res, ch1⟩
    cases res with
    | none => rfl
    | some buffer =>
      simp only []
      split
      · rfl
      · rename_i hb
        split
        · rfl
        · have hlt := recv_chSize_lt ch ch1 (BUFFER_SIZE - 1) buffer (by decide) hr hb
          have hle := handle_unit_chSize_le net malloc_ok n A r buffer ch1
          simp only [handle_unit_reg]
          rw [ih f2 _ (by omega) (by omega)]

/-- One turn of the inbound loop: a non-empty read is handled by the loop body and,
unless that ran into undefined behaviour, the loop goes on with what is left. -/
theorem inbound_unit (net : Transport) (malloc_ok : Nat → Bool) (n : List Byte) (A : Int)
    (r : Registry) (u : List Byte) (rest : List Arrival) (hu : 0 < u.length)
    (hlen : u.length ≤ 1023)
    (hdef : (handle_unit net malloc_ok n A r u rest).undefined = false) :
    inbound net malloc_ok n A r (Arrival.data u :: rest) =
      { events := (handle_unit net malloc_ok n A r u rest).events ++
          (inbound net malloc_ok n A r (handle_unit net malloc_ok n A r u rest).ch).events,
        ch := (inbound net malloc_ok n A r (handle_unit net malloc_ok n A r u rest).ch).ch,
        reg := (inbound net malloc_ok n A r (handle_unit net malloc_ok n A r u rest).ch).reg,
        undefined :=
          (inbound net malloc_ok n A r (handle_unit net malloc_ok n A r u rest).ch).undefined } := by
  have hr : recv (Arrival.data u :: rest) (BUFFER_SIZE - 1) = (some u, rest) := by
    simp only [recv, BUFFER_SIZE]
    rw [if_pos (by omega)]
  have hle := handle_unit_chSize_le net malloc_ok n A r u rest
  rw [inbound, inboundLoop, hr]
  simp only []
  rw [if_neg (by omega), hdef]
  simp only [handle_unit_reg, Bool.false_eq_true, if_false]
  rw [inboundLoop_fuel net malloc_ok n A r _ _ (by simp only [chSize]; omega)]

/-! ## Malformed image headers -/

/-- Where `sscanf` stays inside `filename[256]` and returns something other than 4,
the loop body sends the diagnostic to the offending client only, leaves the globals
and the pending input alone, and the inbound loop goes on with the next read. -/
theorem malformed_header_local (net : Transport) (malloc_ok : Nat → Bool) (n u : List Byte)
    (A : Int) (r : Registry) (rest : List Arrival) (hu : 0 < u.length) (hlen : u.length ≤ 1023)
    (hpre : (cstr u).take 3 = bytes "/i ") (hscan : sscanf_header u = ScanResult.mismatch) :
    handle_unit net malloc_ok n A r u rest =
        { events := [Event.send A (bytes "Format is incorrect!\n")
            (sendRet net A (bytes "Format is incorrect!\n").length)],
          ch := rest, reg := r, undefined := false } ∧
      (inbound net malloc_ok n A r (Arrival.data u :: rest)).events =
        Event.send A (bytes "Format is incorrect!\n")
            (sendRet net A (bytes "Format is incorrect!\n").length)
          :: (inbound net malloc_ok n A r rest).events := by
  have hunit : handle_unit net malloc_ok n A r u rest =
      { events := [Event.send A (bytes "Format is incorrect!\n")
          (sendRet net A (bytes "Format is incorrect!\n").length)],
        ch := rest, reg := r, undefined := false } := by
    unfold handle_unit
    rw [if_pos hpre, hscan]
  refine ⟨hunit, ?_⟩
  rw [inbound_unit net malloc_ok n A r u rest hu hlen (by rw [hunit]), hunit]
  rfl

/-- The local diagnostic at bob (socket 5) sending `/i cat.jpg 2048` and then `hi`. -/
theorem malformed_header_local_witness :
    (inbound reliable (fun _ => true) (bytes "bob") 5
        ⟨[⟨4, []⟩, ⟨5, []⟩, default, default, default], 2⟩
        [Arrival.data (bytes "/i cat.jpg 2048"), Arrival.data (bytes "hi")]).events =
      Event.send 5 (bytes "Format is incorrect!\n")
          (sendRet reliable 5 (bytes "Format is incorrect!\n").length)
        :: (inbound reliable (fun _ => true) (bytes "bob") 5
            ⟨[⟨4, []⟩, ⟨5, []⟩, default, default, default], 2⟩
            [Arrival.data (bytes "hi")]).events :=
  (malformed_header_local reliable (fun _ => true) (bytes "bob") (bytes "/i cat.jpg 2048") 5
    ⟨[⟨4, []⟩, ⟨5, []⟩, default, default, default], 2⟩ [Arrival.data (bytes "hi")]
    (by decide) (by decide) (by decide) (by decide)).2

set_option maxRecDepth 100000 in
/-- C7, failing input: a unit made of `/i ` and 1000 bytes `A` begins with `/i ` and
does not parse into four fields (nothing follows its one token), and `sscanf` stores
the 1000-byte token and a NUL into `filename[256]`, far past the end of the array,
before any reply is sent. -/
theorem malformed_header_overflow :
    (bytes "/i " ++ List.replicate 1000 65).length ≤ BUFFER_SIZE - 1 ∧
      (cstr (bytes "/i " ++ List.replicate 1000 65)).take 3 = bytes "/i " ∧
      scanStr (List.replicate 1000 65) = some (List.replicate 1000 65, []) ∧
      scanInt [] = none ∧
      sscanf_header (bytes "/i " ++ List.replicate 1000 65) = ScanResult.overflow ∧
      handle_unit reliable (fun _ => true) (bytes "bob") 5
          ⟨[⟨4, []⟩, ⟨5, []⟩, default, default, default], 2⟩
          (bytes "/i " ++ List.replicate 1000 65) [] =
        { events := [], ch := [],
          reg := ⟨[⟨4, []⟩, ⟨5, []⟩, default, default, default], 2⟩, undefined := true } := by
  decide

/-! ## Leaving -/

/-- A short image read seen as a whole thread: bob registers, announces 2 bytes,
sends one and closes; the thread runs into the second `free` and no leave notice is
among its `send` calls. -/
theorem leave_after_short_read :
    (handle_client reliable (fun _ => true) 5 ⟨[⟨4, []⟩, default, default, default, default], 1⟩
        [Arrival.data (bytes "bob"), Arrival.data (bytes "/i a 2 1 1"),
          Arrival.data [7]]).undefined = true ∧
      sendCalls (handle_client reliable (fun _ => true) 5
        ⟨[⟨4, []⟩, default, default, default, default], 1⟩
        [Arrival.data (bytes "bob"), Arrival.data (bytes "/i a 2 1 1"),
          Arrival.data [7]]).events =
        [(4, bytes "bob joined the chatroom\n"), (4, bytes "/i bob a 2 1 1\n")] := by
  decide

/-- The payload loop on bursts that hold at least the bytes still missing: it stores
exactly the missing bytes, in order, whatever the bursts are, and leaves the bytes
behind them on the connection. -/
theorem recvImage_bursts (S : Nat) (hS : S < 2 ^ 31) (rest : List Arrival)
    (bursts : List (List Byte)) :
    ∀ (data : List Byte) (total fuel : Nat), (∀ b ∈ bursts, b ≠ []) → total ≤ S →
      S - total ≤ bursts.flatten.length → S - total + 1 ≤ fuel →
      ∃ bursts' : List (List Byte),
        recvImage S data total (bursts.map Arrival.data ++ rest) fuel =
          { image_data := data ++ bursts.flatten.take (S - total), total_received := S,
            ch := bursts'.map Arrival.data ++ rest, freed := false, overflow := false } ∧
        bursts'.flatten = bursts.flatten.drop (S - total) ∧ (∀ b ∈ bursts', b ≠ []) := by
  induction bursts with
  | nil =>
    intro data total fuel _ htot hlen hfuel
    obtain ⟨f, rfl⟩ : ∃ k, fuel = k + 1 := ⟨fuel - 1, by omega⟩
    have hS : total = S := by simp at hlen; omega
    refine ⟨[], ?_, by simp, by simp⟩
    rw [recvImage, if_neg (by omega)]
    simp [hS]
  | cons b bs ih =>
    intro data total fuel hne htot hlen hfuel
    obtain ⟨f, rfl⟩ : ∃ k, fuel = k + 1 := ⟨fuel - 1, by omega⟩
    have hb : b ≠ [] := hne b (List.mem_cons_self _ _)
    have hbl : 0 < b.length := List.length_pos.mpr hb
    simp only [List.flatten_cons, List.length_append] at hlen
    by_cases hlt : total < S
    · rw [recvImage, if_pos hlt]
      simp only [List.map_cons, List.cons_append, recv]
      by_cases hfit : b.length ≤ S - total
      · rw [if_pos hfit]
        simp only []
        rw [if_neg (by omega), if_neg (by omega)]
        obtain ⟨bursts', h1, h2, h3⟩ := ih (data ++ b) (total + b.length) f
          (fun x hx => hne x (List.mem_cons_of_mem _ hx)) (by omega) (by omega) (by omega)
        refine ⟨bursts', ?_, ?_, h3⟩
        · rw [h1]
          simp only [List.flatten_cons, List.take_append_eq_append_take,
            List.take_of_length_le hfit, List.append_assoc]
          rw [show S - (total + b.length) = S - total - b.length by omega]
        · rw [h2]
          simp only [List.flatten_cons, List.drop_append_eq_append_drop,
            List.drop_of_length_le hfit, List.nil_append]
          rw [show S - (total + b.length) = S - total - b.length by omega]
      · rw [if_neg hfit]
        simp only []
        have hgot : (b.take (S - total)).length = S - total := by
          rw [List.length_take]; omega
        rw [if_neg (by omega), if_neg (by omega)]
        obtain ⟨f', rfl⟩ : ∃ k, f = k + 1 := ⟨f - 1, by omega⟩
        rw [recvImage, if_neg (by omega)]
        refine ⟨b.drop (S - total) :: bs, ?_, ?_, ?_⟩
        · simp only [List.map_cons, List.cons_append, List.flatten_cons]
          rw [List.take_append_of_le_length (by omega), hgot]
          congr 1
          omega
        · simp only [List.flatten_cons]
          rw [List.drop_append_of_le_length (by omega)]
        · intro x hx
          rcases List.mem_cons.mp hx with rfl | hx
          · intro h0
            have := congrArg List.length h0
            simp only [List.length_drop, List.length_nil] at this
            omega
          · exact hne x (List.mem_cons_of_mem _ hx)
    · have hS : total = S := by omega
      rw [recvImage, if_neg hlt]
      refine ⟨b :: bs, ?_, by simp [hS], hne⟩
      simp [hS]

/-- The payload loop on a connection that ends before the announced size is
reached: it stores what arrived and leaves through `free(image_data); break;`. -/
theorem recvImage_short (S : Nat) (hS : S < 2 ^ 31) (tail : List Arrival)
    (hend : endsHere tail = true) (bursts : List (List Byte)) :
    ∀ (data : List Byte) (total fuel : Nat), (∀ b ∈ bursts, b ≠ []) →
      total + bursts.flatten.length < S → S - total ≤ fuel →
      recvImage S data total (bursts.map Arrival.data ++ tail) fuel =
        { image_data := data ++ bursts.flatten,
          total_received := total + bursts.flatten.length,
          ch := tail.drop 1, freed := true, overflow := false } := by
  induction bursts with
  | nil =>
    intro data total fuel _ hlt hfuel
    obtain ⟨f, rfl⟩ : ∃ k, fuel = k + 1 := ⟨fuel - 1, by simp at hlt; omega⟩
    have hlt' : total < S := by simpa using hlt
    rw [recvImage, if_pos hlt']
    simp only [List.map_nil, List.nil_append]
    cases tail with
    | nil => simp [recv]
    | cons a rest =>
      cases a with
      | error => simp [recv]
      | data bs =>
        have hbs : bs.length = 0 := by simpa [endsHere] using hend
        have hbs' : bs = [] := List.length_eq_zero.mp hbs
        subst hbs'
        simp [recv]
  | cons b bs ih =>
    intro data total fuel hne hlt hfuel
    have hb : b ≠ [] := hne b (List.mem_cons_self _ _)
    have hbl : 0 < b.length := List.length_pos.mpr hb
    simp only [List.flatten_cons, List.length_append] at hlt
    obtain ⟨f, rfl⟩ : ∃ k, fuel = k + 1 := ⟨fuel - 1, by omega⟩
    rw [recvImage, if_pos (by omega)]
    simp only [List.map_cons, List.cons_append, recv]
    rw [if_pos (by omega)]
    simp only []
    rw [if_neg (by omega), if_neg (by omega),
      ih (data ++ b) (total + b.length) f (fun x hx => hne x (List.mem_cons_of_mem _ hx))
        (by omega) (by omega)]
    simp only [List.flatten_cons, List.append_assoc, List.length_append, Nat.add_assoc]

/-! ## Sending an image -/

theorem sendRet_bounds (net : Transport) (s : Int) (len k : Nat)
    (h : sendRet net s len = some k) (hlen : 0 < len) : 1 ≤ k ∧ k ≤ len := by
  unfold sendRet at h
  cases hn : net s len with
  | none => rw [hn] at h; simp at h
  | some k0 =>
    rw [hn] at h
    simp only [Option.map_some', Option.some.injEq] at h
    omega

theorem sendRet_isSome (net : Transport) (s : Int) (len : Nat) (h : net s len ≠ none) :
    ∃ k, sendRet net s len = some k := by
  unfold sendRet
  cases hn : net s len with
  | none => exact absurd hn h
  | some k0 => exact ⟨_, rfl⟩

/-- The `send` loop of `broadcast_image_data` on a socket the transport never
refuses: whatever the sizes of the partial sends, the bytes put on the connection
are the bytes from `bytes_sent` up to `data_len`, in order. -/
theorem sendAll_delivered (net : Transport) (s : Int) (data : List Byte) (len : Nat)
    (hnet : ∀ l, net s l ≠ none) :
    ∀ (fuel sent : Nat), len - sent ≤ fuel →
      delivered s (sendAll net s data len sent fuel) = (data.drop sent).take (len - sent) := by
  intro fuel
  induction fuel with
  | zero =>
    intro sent hf
    have : len - sent = 0 := by omega
    simp [sendAll, delivered, this]
  | succ fuel ih =>
    intro sent hf
    rw [sendAll]
    by_cases hlt : sent < len
    · rw [if_pos hlt]
      obtain ⟨k, hk⟩ := sendRet_isSome net s (len - sent) (hnet _)
      obtain ⟨hk1, hk2⟩ := sendRet_bounds net s (len - sent) k hk (by omega)
      rw [hk]
      simp only [delivered, if_true]
      rw [ih (sent + k) (by omega), List.take_take, min_eq_left hk2]
      have hsplit : len - sent = k + (len - (sent + k)) := by omega
      conv_rhs => rw [hsplit, List.take_add, List.drop_drop]
    · rw [if_neg hlt]
      have : len - sent = 0 := by omega
      simp [delivered, this]

theorem sendAll_delivered_other (net : Transport) (s s1 : Int) (data : List Byte) (len : Nat)
    (hne : s ≠ s1) :
    ∀ (fuel sent : Nat), delivered s1 (sendAll net s data len sent fuel) = [] := by
  intro fuel
  induction fuel with
  | zero => intro sent; rfl
  | succ fuel ih =>
    intro sent
    rw [sendAll]
    split
    · split
      · rfl
      · simp only [delivered, if_neg hne]
        exact ih _
    · rfl

theorem dataLoop_eq (net : Transport) (data : List Byte) (len : Nat) (sender : Int)
    (r : Registry) (hwf : r.WF) (k i : Nat) (hik : i + k = r.client_count.toNat) :
    dataLoop net data len sender r i k =
      ((r.registered.drop i).filter (fun c => decide (c.socket ≠ sender))).flatMap
        (fun c => sendAll net c.socket data len 0 len) := by
  induction k generalizing i with
  | zero =>
    rw [registered_drop_all r i (by omega)]
    rfl
  | succ k ih =>
    rw [dataLoop, ih (i + 1) (by omega), registered_drop r hwf i (by omega),
      List.filter_cons]
    generalize r.clients.getD i default = c
    by_cases hs : c.socket = sender
    · simp [hs]
    · simp [hs]

theorem delivered_flatMap (s : Int) (l : List clientInfo_t) (g : clientInfo_t → List Event) :
    delivered s (l.flatMap g) = l.flatMap (fun c => delivered s (g c)) := by
  induction l with
  | nil => rfl
  | cons c l ih => simp [List.flatMap_cons, delivered_append, ih]

theorem delivered_map_send (s : Int) (l : List clientInfo_t) (msg : List Byte)
    (g : clientInfo_t → Option Nat) (hg : ∀ c ∈ l, c.socket = s → g c = some msg.length) :
    delivered s (l.map (fun c => Event.send c.socket msg (g c))) =
      l.flatMap (fun c => if c.socket = s then msg else []) := by
  induction l with
  | nil => rfl
  | cons c l ih =>
    have ih' := ih (fun x hx => hg x (List.mem_cons_of_mem _ hx))
    simp only [List.map_cons, List.flatMap_cons]
    by_cases hs : c.socket = s
    · have hc := hg c (List.mem_cons_self _ _) hs
      simp only [hc, delivered, ih', List.take_length, hs, if_true]
    · rw [if_neg hs]
      cases hgc : g c with
      | none => simp only [delivered, ih', List.nil_append]
      | some k => simp only [delivered, if_neg hs, ih', List.nil_append]

theorem delivered_flatMap_sendAll (net : Transport) (s : Int) (data : List Byte) (len : Nat)
    (l : List clientInfo_t)
    (hnet : s ∈ l.map (fun c => c.socket) → ∀ k, net s k ≠ none) :
    delivered s (l.flatMap (fun c => sendAll net c.socket data len 0 len)) =
      l.flatMap (fun c => if c.socket = s then data.take len else []) := by
  induction l with
  | nil => rfl
  | cons c l ih =>
    have ih' := ih (fun hm => hnet (by
      simp only [List.map_cons, List.mem_cons]; exact Or.inr hm))
    simp only [List.flatMap_cons, delivered_append, ih']
    by_cases hs : c.socket = s
    · have hn := hnet (by simp only [List.map_cons, List.mem_cons]; exact Or.inl hs.symm)
      rw [if_pos hs, hs, sendAll_delivered net s data len hn len 0 (by omega)]
      simp
    · rw [if_neg hs, sendAll_delivered_other net c.socket s data len hs]

/-- No entry is addressed by a socket that none of them holds. -/
theorem flatMap_socket_none (s : Int) (X : List Byte) (l : List clientInfo_t)
    (h0 : s ∉ l.map (fun c => c.socket)) :
    l.flatMap (fun c => if c.socket = s then X else []) = [] := by
  induction l with
  | nil => rfl
  | cons c l ih =>
    simp only [List.map_cons, List.mem_cons, not_or] at h0
    rw [List.flatMap_cons, ih h0.2, if_neg (fun e => h0.1 e.symm)]
    rfl

/-- Exactly one entry is addressed by a socket that exactly one of them holds. -/
theorem flatMap_socket_one (s : Int) (X : List Byte) (l : List clientInfo_t)
    (h1 : List.count s (l.map (fun c => c.socket)) = 1) :
    l.flatMap (fun c => if c.socket = s then X else []) = X := by
  induction l with
  | nil => simp at h1
  | cons c l ih =>
    rw [List.flatMap_cons]
    simp only [List.map_cons] at h1
    by_cases hs : c.socket = s
    · rw [hs, List.count_cons_self] at h1
      have h0 : s ∉ l.map (fun c => c.socket) := by
        intro hm
        have := List.count_pos_iff.mpr hm
        omega
      rw [if_pos hs, flatMap_socket_none s X l h0, List.append_nil]
    · rw [List.count_cons_of_ne (fun e => hs e.symm)] at h1
      rw [if_neg hs, ih h1, List.nil_append]

theorem recipients_sockets (r : Registry) (A s : Int) :
    s ∈ (recipients r A).map (fun c => c.socket) ↔ s ∈ r.sockets ∧ s ≠ A := by
  simp only [recipients, Registry.sockets, List.mem_map, List.mem_filter, decide_eq_true_eq]
  constructor
  · rintro ⟨c, ⟨hc, hne⟩, rfl⟩
    exact ⟨⟨c, hc, rfl⟩, hne⟩
  · rintro ⟨⟨c, hc, rfl⟩, hne⟩
    exact ⟨c, ⟨hc, hne⟩, rfl⟩

theorem recipients_count (r : Registry) (A s : Int) (hs : s ≠ A) :
    List.count s ((recipients r A).map (fun c => c.socket)) = List.count s r.sockets := by
  unfold recipients Registry.sockets
  induction r.registered with
  | nil => rfl
  | cons c l ih =>
    rw [List.filter_cons]
    by_cases hc : c.socket = A
    · simp only [hc, ne_eq, not_true_eq_false, decide_False, Bool.false_eq_true, if_false,
        List.map_cons]
      rw [List.count_cons_of_ne hs]
      exact ih
    · simp only [ne_eq, hc, not_false_eq_true, decide_True, if_true, List.map_cons,
        List.count_cons, ih]

/-! ## The re-announced header -/

theorem fmtNatAux_digits (fuel n : Nat) (acc : List Byte)
    (hacc : ∀ b ∈ acc, 48 ≤ b ∧ b ≤ 57) : ∀ b ∈ fmtNatAux fuel n acc, 48 ≤ b ∧ b ≤ 57 := by
  induction fuel generalizing n acc with
  | zero => exact hacc
  | succ fuel ih =>
    rw [fmtNatAux]
    split
    · rename_i hlt
      intro b hb
      rcases List.mem_cons.mp hb with hb | hb
      · subst hb
        exact ⟨Nat.le_add_right 48 n, Nat.add_le_add_left (Nat.le_of_lt_succ hlt) 48⟩
      · exact hacc b hb
    · apply ih
      intro b hb
      rcases List.mem_cons.mp hb with hb | hb
      · subst hb
        have hmod : n % 10 < 10 := Nat.mod_lt _ (by norm_num)
        exact ⟨Nat.le_add_right 48 _, Nat.add_le_add_left (Nat.le_of_lt_succ hmod) 48⟩
      · exact hacc b hb

theorem fmtNatAux_length (fuel : Nat) :
    ∀ (k n : Nat) (acc : List Byte), n < 10 ^ (k + 1) →
      (fmtNatAux fuel n acc).length ≤ k + 1 + acc.length := by
  induction fuel with
  | zero => intro k n acc _; simp [fmtNatAux]
  | succ fuel ih =>
    intro k n acc hn
    rw [fmtNatAux]
    split
    · simp only [List.length_cons]; omega
    · rename_i h10
      cases k with
      | zero => simp at hn; omega
      | succ k =>
        have hdiv : n / 10 < 10 ^ (k + 1) := by
          apply Nat.div_lt_of_lt_mul
          rw [pow_succ] at hn
          omega
        have := ih k (n / 10) ((48 + n % 10) :: acc) hdiv
        simp only [List.length_cons] at this
        omega

theorem fmt_d_no_nul (v : Int) : 0 ∉ fmt_d v := by
  have hu : ∀ n : Nat, 0 ∉ fmt_u n := by
    intro n h0
    have := fmtNatAux_digits (n + 1) n [] (by simp) 0 h0
    exact absurd this.1 (by decide)
  unfold fmt_d
  split
  · intro h0
    rcases List.mem_cons.mp h0 with h | h
    · exact absurd h (by decide)
    · exact hu _ h
  · exact hu _

theorem no_nul_append (a b : List Byte) (ha : 0 ∉ a) (hb : 0 ∉ b) : 0 ∉ a ++ b := by
  simp only [List.mem_append, not_or]
  exact ⟨ha, hb⟩

theorem fmt_d_toInt32_length (x : Nat) : (fmt_d (toInt32 x)).length ≤ 11 := by
  have hu : ∀ n : Nat, n < 10 ^ 10 → (fmt_u n).length ≤ 10 := by
    intro n hn
    have := fmtNatAux_length (n + 1) 9 n [] hn
    simpa [fmt_u] using this
  have hmod : x % 2 ^ 32 < 2 ^ 32 := Nat.mod_lt _ (by norm_num)
  have habs : (toInt32 x).natAbs < 10 ^ 10 := by
    unfold toInt32
    split <;> omega
  unfold fmt_d
  split
  · have := hu _ habs
    simp only [List.length_cons]; omega
  · have := hu _ habs
    omega

theorem toInt32_of_lt (x : Nat) (h : x < 2 ^ 31) : toInt32 x = (x : Int) := by
  unfold toInt32
  have hm : x % 2 ^ 32 = x := Nat.mod_eq_of_lt (by omega)
  rw [hm, if_pos h]

theorem scanStr_mem (s tok rest : List Byte) (h : scanStr s = some (tok, rest)) :
    ∀ b ∈ tok, b ∈ s := by
  unfold scanStr at h
  simp only at h
  split at h
  · cases h
  · simp only [Option.some.injEq, Prod.mk.injEq] at h
    obtain ⟨rfl, _⟩ := h
    intro b hb
    exact (List.dropWhile_sublist _).subset ((List.takeWhile_sublist _).subset hb)

/-- The file name stored by a `sscanf` call that returns 4 fits `filename[256]` and
holds no NUL. -/
theorem sscanf_fields_inv (u f : List Byte) (S w h : Nat)
    (hs : sscanf_header u = ScanResult.fields f S w h) : f.length ≤ 255 ∧ 0 ∉ f := by
  unfold sscanf_header at hs
  split at hs
  · rename_i s hc
    split at hs
    · cases hs
    · rename_i filename s1 hstr
      split at hs
      · cases hs
      · rename_i hfit
        split at hs
        · cases hs
        · split at hs
          · cases hs
          · split at hs
            · cases hs
            · simp only [ScanResult.fields.injEq] at hs
              obtain ⟨rfl, _⟩ := hs
              refine ⟨by omega, fun h0 => ?_⟩
              have hmem := scanStr_mem s filename s1 hstr 0 h0
              have : (0 : Byte) ∈ cstr u := by
                rw [hc]; exact List.mem_cons_of_mem _ (List.mem_cons_of_mem _ hmem)
              exact cstr_no_nul u this
  · cases hs

/-- The `%d` fields saturate as `strtol` does before their low 32 bits are stored:
a size of `2 ^ 64 + 3` is stored as 4294967295, and a width and height beyond `long`
are re-announced as `-1` and `0`. -/
theorem sscanf_header_saturates :
    sscanf_header (bytes "/i a 18446744073709551619 1 1") =
        ScanResult.fields (bytes "a") 4294967295 1 1 ∧
      sscanf_header (bytes "/i a 0 99999999999999999999 -99999999999999999999") =
        ScanResult.fields (bytes "a") 0 4294967295 0 ∧
      cstr (image_header (bytes "bob") (bytes "a") (toInt32 0) 4294967295 0) =
        bytes "/i bob a 0 -1 0\n" := by
  decide

/-- The line `broadcast_image_header` sends: nothing is cut by `snprintf`, and no
byte of it is NUL. -/
theorem image_header_eq (n f : List Byte) (S w h : Nat) (hn : n.length ≤ 9)
    (hf : f.length ≤ 255) (hf0 : 0 ∉ f) :
    cstr (image_header n f (toInt32 S) w h) = announcedLine (cstr n) f S w h := by
  have h0 := cstr_length_le n
  have h1 := fmt_d_toInt32_length S
  have h2 := fmt_d_toInt32_length w
  have h3 := fmt_d_toInt32_length h
  unfold image_header announcedLine
  rw [cstr_of_no_nul f hf0]
  have hlen : (bytes "/i " ++ cstr n ++ bytes " " ++ f ++ bytes " " ++ fmt_d (toInt32 S)
        ++ bytes " " ++ fmt_d (toInt32 w) ++ bytes " " ++ fmt_d (toInt32 h) ++ bytes "\n").length
      ≤ BUFFER_SIZE - 1 := by
    simp only [List.length_append, show (bytes "/i ").length = 3 from rfl,
      show (bytes " ").length = 1 from rfl, show (bytes "\n").length = 1 from rfl, BUFFER_SIZE]
    omega
  rw [snprintf, List.take_of_length_le hlen]
  apply cstr_of_no_nul
  have hsp : (0 : Byte) ∉ bytes " " := by decide
  exact no_nul_append _ _ (no_nul_append _ _ (no_nul_append _ _ (no_nul_append _ _
    (no_nul_append _ _ (no_nul_append _ _ (no_nul_append _ _ (no_nul_append _ _
    (no_nul_append _ _ (no_nul_append _ _ (by decide) (cstr_no_nul n)) hsp) hf0) hsp)
    (fmt_d_no_nul _)) hsp) (fmt_d_no_nul _)) hsp) (fmt_d_no_nul _)) (by decide)

/-! ## Image units -/

/-- The loop body on a read that parses as an image header, when the announced
number of bytes arrives after it: the header is re-announced, then exactly the
announced bytes are broadcast. -/
theorem handle_unit_image (net : Transport) (malloc_ok : Nat → Bool) (n u f : List Byte)
    (A : Int) (r : Registry) (S w h : Nat) (bursts : List (List Byte)) (rest : List Arrival)
    (hpre : (cstr u).take 3 = bytes "/i ")
    (hscan : sscanf_header u = ScanResult.fields f S w h) (hS : S < 2 ^ 31)
    (hmal : malloc_ok S = true) (hne : ∀ b ∈ bursts, b ≠ [])
    (hlen : S ≤ bursts.flatten.length) :
    ∃ bursts' : List (List Byte),
      handle_unit net malloc_ok n A r u (bursts.map Arrival.data ++ rest) =
          { events := broadcast_image_header net f (toInt32 S) A n w h r ++
              broadcast_image_data net (bursts.flatten.take S) S A r,
            ch := bursts'.map Arrival.data ++ rest, reg := r, undefined := false } ∧
        bursts'.flatten = bursts.flatten.drop S ∧ (∀ b ∈ bursts', b ≠ []) := by
  obtain ⟨bursts', h1, h2, h3⟩ := recvImage_bursts S hS rest bursts [] 0 (S + 1) hne
    (Nat.zero_le _) (by simpa using hlen) (by omega)
  refine ⟨bursts', ?_, by simpa using h2, h3⟩
  unfold handle_unit
  rw [if_pos hpre, hscan]
  simp only [hmal, if_true, h1]
  simp

/-- C4, counterexample: the stream is the header `/i a 2 1 1`, the payload 7, 8 and
the chat text `hi`; the transport returns the header together with the first payload
byte. The relay hands 8 and the `h` of the chat text to `broadcast_image_data`. -/
theorem payload_reassembly_counterexample :
    sendCalls (inbound reliable (fun _ => true) (bytes "bob") 5
        ⟨[⟨4, []⟩, ⟨5, []⟩, default, default, default], 2⟩
        [Arrival.data (bytes "/i a 2 1 1" ++ [7]), Arrival.data [8],
          Arrival.data (bytes "hi")]).events =
      [(4, bytes "/i bob a 2 1 1\n"), (4, [8, 104]), (4, bytes "bob: i\n")] := by
  decide

/-- C4, amended. For every read that parses as a client image header announcing
size `S` (below `2 ^ 31`, with `malloc(S)` succeeding) and for every way the
transport splits the bytes that follow that read into bursts, the loop body collects
exactly the first `S` of those bytes and hands them, byte-identical and of length `S`,
to `broadcast_image_data`; the bytes behind them stay on the connection. -/
theorem payload_reassembly (net : Transport) (malloc_ok : Nat → Bool) (n u f : List Byte)
    (A : Int) (r : Registry) (S w h : Nat) (bursts : List (List Byte)) (rest : List Arrival)
    (hpre : (cstr u).take 3 = bytes "/i ")
    (hscan : sscanf_header u = ScanResult.fields f S w h) (hS : S < 2 ^ 31)
    (hmal : malloc_ok S = true) (hne : ∀ b ∈ bursts, b ≠ [])
    (hlen : S ≤ bursts.flatten.length) :
    (handle_unit net malloc_ok n A r u (bursts.map Arrival.data ++ rest)).events =
        broadcast_image_header net f (toInt32 S) A n w h r ++
          broadcast_image_data net (bursts.flatten.take S) S A r ∧
      (bursts.flatten.take S).length = S ∧
      (handle_unit net malloc_ok n A r u (bursts.map Arrival.data ++ rest)).undefined = false ∧
      ∃ bursts' : List (List Byte),
        (handle_unit net malloc_ok n A r u (bursts.map Arrival.data ++ rest)).ch =
            bursts'.map Arrival.data ++ rest ∧
          bursts'.flatten = bursts.flatten.drop S ∧ (∀ b ∈ bursts', b ≠ []) := by
  obtain ⟨bursts', h1, h2, h3⟩ := handle_unit_image net malloc_ok n u f A r S w h bursts rest
    hpre hscan hS hmal hne hlen
  rw [h1]
  exact ⟨rfl, by rw [List.length_take]; omega, rfl, bursts', rfl, h2, h3⟩

/-- C4, amended, at the header `/i a 5 1 1` followed by the bursts 1, 2 and 3 and
4, 5, 6: the payload handed on is 1, 2, 3, 4, 5. -/
theorem payload_reassembly_witness :
    (handle_unit reliable (fun _ => true) (bytes "bob") 5
        ⟨[⟨4, []⟩, ⟨5, []⟩, default, default, default], 2⟩ (bytes "/i a 5 1 1")
        ([[1, 2], [3], [4, 5, 6]].map Arrival.data ++ [])).events =
      broadcast_image_header reliable (bytes "a") (toInt32 5) 5 (bytes "bob") 1 1
          ⟨[⟨4, []⟩, ⟨5, []⟩, default, default, default], 2⟩ ++
        broadcast_image_data reliable [1, 2, 3, 4, 5] 5 5
          ⟨[⟨4, []⟩, ⟨5, []⟩, default, default, default], 2⟩ :=
  (payload_reassembly reliable (fun _ => true) (bytes "bob") (bytes "/i a 5 1 1") (bytes "a") 5
    ⟨[⟨4, []⟩, ⟨5, []⟩, default, default, default], 2⟩ 5 1 1 [[1, 2], [3], [4, 5, 6]] []
    (by decide) (by decide) (by decide) (by decide) (by decide) (by decide)).1

/-- C5, counterexample: bob (socket 5) announces 2 bytes, sends one and closes; the
re-announced header has been sent to socket 4. -/
theorem short_read_counterexample :
    sendCalls (handle_unit reliable (fun _ => true) (bytes "bob") 5
        ⟨[⟨4, []⟩, ⟨5, []⟩, default, default, default], 2⟩ (bytes "/i a 2 1 1")
        [Arrival.data [7]]).events =
      [(4, bytes "/i bob a 2 1 1\n")] := by
  decide

/-- C5, amended. If, after a read that parses as a client image header announcing
size `S` (below `2 ^ 31`, with `malloc(S)` succeeding), the sender's connection is
closed or fails before `S` payload bytes have arrived, the only `send` calls of the
loop body are those of `broadcast_image_header`, one to every live entry with
another socket: no payload byte is sent to anyone. -/
theorem short_read (net : Transport) (malloc_ok : Nat → Bool) (n u f : List Byte)
    (A : Int) (r : Registry) (S w h : Nat) (bursts : List (List Byte)) (tail : List Arrival)
    (hwf : r.WF) (hpre : (cstr u).take 3 = bytes "/i ")
    (hscan : sscanf_header u = ScanResult.fields f S w h) (hS : S < 2 ^ 31)
    (hmal : malloc_ok S = true) (hne : ∀ b ∈ bursts, b ≠ [])
    (hshort : bursts.flatten.length < S) (hend : endsHere tail = true) :
    (handle_unit net malloc_ok n A r u (bursts.map Arrival.data ++ tail)).events =
        broadcast_image_header net f (toInt32 S) A n w h r ∧
      sendCalls (handle_unit net malloc_ok n A r u (bursts.map Arrival.data ++ tail)).events =
        (recipients r A).map
          (fun c => (c.socket, cstr (image_header n f (toInt32 S) w h))) := by
  have h1 := recvImage_short S hS tail hend bursts [] 0 (S + 1) hne (by omega) (by omega)
  have hev : (handle_unit net malloc_ok n A r u (bursts.map Arrival.data ++ tail)).events =
      broadcast_image_header net f (toInt32 S) A n w h r := by
    unfold handle_unit
    rw [if_pos hpre, hscan]
    simp only [hmal, if_true, h1]
    have hneq : ¬ (0 + bursts.flatten.length = S) := by omega
    simp only [Bool.false_eq_true, if_false, if_neg hneq, List.append_nil]
  refine ⟨hev, ?_⟩
  rw [hev]
  unfold broadcast_image_header
  rw [broadcastLoop_eq net _ A r hwf _ 0 (by omega), sendCalls_append, sendCalls_append,
    List.drop_zero, sendCalls_map_send]
  simp [sendCalls, recipients]

/-- C5, amended, at bob announcing 2 bytes, sending one and closing. -/
theorem short_read_witness :
    (handle_unit reliable (fun _ => true) (bytes "bob") 5
        ⟨[⟨4, []⟩, ⟨5, []⟩, default, default, default], 2⟩ (bytes "/i a 2 1 1")
        ([[7]].map Arrival.data ++ [])).events =
      broadcast_image_header reliable (bytes "a") (toInt32 2) 5 (bytes "bob") 1 1
        ⟨[⟨4, []⟩, ⟨5, []⟩, default, default, default], 2⟩ :=
  (short_read reliable (fun _ => true) (bytes "bob") (bytes "/i a 2 1 1") (bytes "a") 5
    ⟨[⟨4, []⟩, ⟨5, []⟩, default, default, default], 2⟩ 2 1 1 [[7]] []
    (by decide) (by decide) (by decide) (by decide) (by decide) (by decide) (by decide)
    (by decide)).1

/-- A short image read (bob announces 2 bytes, sends one and closes) ends in a
second `free` of `image_data` (line 176, then line 187). -/
theorem short_read_double_free :
    (handle_unit reliable (fun _ => true) (bytes "bob") 5
        ⟨[⟨4, []⟩, ⟨5, []⟩, default, default, default], 2⟩ (bytes "/i a 2 1 1")
        [Arrival.data [7]]).undefined = true := by
  decide

theorem delivered_bracket (s : Int) (es : List Event) :
    delivered s ([Event.lock] ++ es ++ [Event.unlock]) = delivered s es := by
  rw [delivered_append, delivered_append]
  simp [delivered]

/-- What `broadcast_image_header` puts on the connection `s` when the transport
accepts the header line for `s` whole. -/
theorem delivered_broadcast_image_header (net : Transport) (f n : List Byte) (size : Int)
    (w h : Nat) (A s : Int) (r : Registry) (hwf : r.WF)
    (hwhole : s ∈ (recipients r A).map (fun c => c.socket) →
      sendRet net s (cstr (image_header n f size w h)).length =
        some (cstr (image_header n f size w h)).length) :
    delivered s (broadcast_image_header net f size A n w h r) =
      (recipients r A).flatMap
        (fun c => if c.socket = s then cstr (image_header n f size w h) else []) := by
  unfold broadcast_image_header
  rw [delivered_bracket, broadcastLoop_eq net _ A r hwf _ 0 (by omega), List.drop_zero]
  exact delivered_map_send s _ _ _ (fun c hc hs => by
    rw [hs]
    exact hwhole (hs ▸ List.mem_map_of_mem (fun c => c.socket) hc))

/-- What `broadcast_image_data` puts on the connection `s` when the transport
refuses no `send` to `s`. -/
theorem delivered_broadcast_image_data (net : Transport) (data : List Byte) (len : Nat)
    (A s : Int) (r : Registry) (hwf : r.WF)
    (hnet : s ∈ (recipients r A).map (fun c => c.socket) → ∀ k, net s k ≠ none) :
    delivered s (broadcast_image_data net data len A r) =
      (recipients r A).flatMap (fun c => if c.socket = s then data.take len else []) := by
  unfold broadcast_image_data
  rw [delivered_bracket, dataLoop_eq net data len A r hwf _ 0 (by omega), List.drop_zero]
  exact delivered_flatMap_sendAll net s data len _ hnet

/-- C6, counterexample: bob (socket 5) sends `/i cat.jpg 4 100 80` and the bytes
1, 2, 3, 4; what carol (socket 6) is sent is `/i bob cat.jpg 4 100 80`, a newline and
the four bytes, not the header immediately followed by the four bytes. -/
theorem image_reannouncement_counterexample :
    delivered 6 (handle_unit reliable (fun _ => true) (bytes "bob") 5
        ⟨[⟨5, []⟩, ⟨6, []⟩, default, default, default], 2⟩ (bytes "/i cat.jpg 4 100 80")
        [Arrival.data [1, 2, 3, 4]]).events =
        bytes "/i bob cat.jpg 4 100 80\n" ++ [1, 2, 3, 4] ∧
      delivered 6 (handle_unit reliable (fun _ => true) (bytes "bob") 5
        ⟨[⟨5, []⟩, ⟨6, []⟩, default, default, default], 2⟩ (bytes "/i cat.jpg 4 100 80")
        [Arrival.data [1, 2, 3, 4]]).events ≠
      bytes "/i bob cat.jpg 4 100 80" ++ [1, 2, 3, 4] := by
  decide

/-- C6, amended. For every sender `A` whose handshake bytes are `n` (at most 9; the
nickname is `cstr n`) and every read that parses as a client image header with file
name `f` and values `S` (below `2 ^ 31`, with `malloc(S)` succeeding), `w`, `h`,
followed on the connection by at least `S` bytes in any bursts, on a well-formed
registry: (1) for a socket `s` other than `A` that exactly one live entry holds, if
the transport refuses no `send` to `s` and accepts the header line for `s` whole, the
bytes put on the connection `s` are the line `/i <nickname> f S w h` ended by a
newline, immediately followed by exactly the `S` payload bytes; (2) nothing is put
on the connection of `A` or on a connection that no live entry holds. -/
theorem image_reannouncement (net : Transport) (malloc_ok : Nat → Bool) (n u f : List Byte)
    (A s : Int) (r : Registry) (S w h : Nat) (bursts : List (List Byte)) (rest : List Arrival)
    (hwf : r.WF) (hn : n.length ≤ 9) (hpre : (cstr u).take 3 = bytes "/i ")
    (hscan : sscanf_header u = ScanResult.fields f S w h) (hS : S < 2 ^ 31)
    (hmal : malloc_ok S = true) (hne : ∀ b ∈ bursts, b ≠ [])
    (hlen : S ≤ bursts.flatten.length) :
    (s ≠ A → List.count s r.sockets = 1 → (∀ k, net s k ≠ none) →
      sendRet net s (announcedLine (cstr n) f S w h).length =
        some (announcedLine (cstr n) f S w h).length →
      delivered s
          (handle_unit net malloc_ok n A r u (bursts.map Arrival.data ++ rest)).events =
        announcedLine (cstr n) f S w h ++ bursts.flatten.take S) ∧
    ((s = A ∨ s ∉ r.sockets) →
      delivered s
          (handle_unit net malloc_ok n A r u (bursts.map Arrival.data ++ rest)).events = []) := by
  obtain ⟨bursts', h1, _, _⟩ := handle_unit_image net malloc_ok n u f A r S w h bursts rest
    hpre hscan hS hmal hne hlen
  obtain ⟨hf, hf0⟩ := sscanf_fields_inv u f S w h hscan
  have hhdr := image_header_eq n f S w h hn hf hf0
  rw [h1]
  simp only []
  rw [delivered_append]
  constructor
  · intro hsA hcount hnet hwhole
    have hc : List.count s ((recipients r A).map (fun c => c.socket)) = 1 := by
      rw [recipients_count r A s hsA]; exact hcount
    rw [delivered_broadcast_image_header net f n (toInt32 S) w h A s r hwf
        (fun _ => by rw [hhdr]; exact hwhole),
      delivered_broadcast_image_data net _ S A s r hwf (fun _ => hnet),
      flatMap_socket_one s _ _ hc, flatMap_socket_one s _ _ hc, hhdr, List.take_take, min_self]
  · intro hs
    have hnot : s ∉ (recipients r A).map (fun c => c.socket) := by
      rw [recipients_sockets]
      rintro ⟨hmem, hne'⟩
      rcases hs with hs | hs
      · exact hne' hs
      · exact hs hmem
    rw [delivered_broadcast_image_header net f n (toInt32 S) w h A s r hwf
        (fun hm => absurd hm hnot),
      delivered_broadcast_image_data net _ S A s r hwf (fun hm => absurd hm hnot),
      flatMap_socket_none s _ _ hnot, flatMap_socket_none s _ _ hnot]
    rfl

/-- C6, amended, at bob (socket 5) sending `/i cat.jpg 4 100 80` and the bytes
1, 2, 3, 4 in two bursts while carol (socket 6) is registered: carol is sent the line
`/i bob cat.jpg 4 100 80`, a newline and the four bytes, bob nothing. -/
theorem image_reannouncement_witness :
    delivered 6 (handle_unit reliable (fun _ => true) (bytes "bob") 5
        ⟨[⟨5, []⟩, ⟨6, []⟩, default, default, default], 2⟩ (bytes "/i cat.jpg 4 100 80")
        ([[1, 2, 3], [4]].map Arrival.data ++ [])).events =
        bytes "/i bob cat.jpg 4 100 80\n" ++ [1, 2, 3, 4] ∧
      delivered 5 (handle_unit reliable (fun _ => true) (bytes "bob") 5
        ⟨[⟨5, []⟩, ⟨6, []⟩, default, default, default], 2⟩ (bytes "/i cat.jpg 4 100 80")
        ([[1, 2, 3], [4]].map Arrival.data ++ [])).events = [] :=
  ⟨(image_reannouncement reliable (fun _ => true) (bytes "bob") (bytes "/i cat.jpg 4 100 80")
      (bytes "cat.jpg") 5 6 ⟨[⟨5, []⟩, ⟨6, []⟩, default, default, default], 2⟩ 4 100 80
      [[1, 2, 3], [4]] [] (by decide) (by decide) (by decide) (by decide) (by decide)
      (by decide) (by decide) (by decide)).1 (by decide) (by decide)
      (fun _ h => by cases h) (by decide),
   (image_reannouncement reliable (fun _ => true) (bytes "bob") (bytes "/i cat.jpg 4 100 80")
      (bytes "cat.jpg") 5 5 ⟨[⟨5, []⟩, ⟨6, []⟩, default, default, default], 2⟩ 4 100 80
      [[1, 2, 3], [4]] [] (by decide) (by decide) (by decide) (by decide) (by decide)
      (by decide) (by decide) (by decide)).2 (Or.inl rfl)⟩

end Chatroom
